import Mathlib

/-!
Verification of the OrmKit query builder, session, relationship loader and
migration runner, translated as a shallow embedding from
`src/python/ormkit/session.py` and `src/python/ormkit/migrations/runner.py`.

Python values that flow through the query builder are modelled by `PyVal`;
SQL text is plain `String`; the dialect tag is the string the code itself
compares against (`"postgresql"` / `"sqlite"`).
-/

namespace Ormkit

/-- Scalar Python values (elements of `in` / `notin` collections). -/
inductive PyAtom where
  | anone
  | aint (n : Int)
  | astr (s : String)
  | abool (b : Bool)
deriving Repr, BEq, DecidableEq

/-- Python values appearing as filter parameters: `None`, ints, strings,
booleans and flat lists (used by `in` / `notin` collections). -/
inductive PyVal where
  | vnone
  | vint (n : Int)
  | vstr (s : String)
  | vbool (b : Bool)
  | vlist (xs : List PyAtom)
deriving Repr, BEq, DecidableEq

/-- Lift a scalar into `PyVal`. -/
def PyAtom.toVal : PyAtom → PyVal
  | .anone => .vnone
  | .aint n => .vint n
  | .astr s => .vstr s
  | .abool b => .vbool b

/-- Python truthiness (`if not value`): `None`, `0`, `""`, `False` and the
empty list are falsy. -/
def PyVal.truthy : PyVal → Bool
  | .vnone => false
  | .vint n => n ≠ 0
  | .vstr s => s ≠ ""
  | .vbool b => b
  | .vlist xs => ¬ xs.isEmpty

/-- `list(value)` for collection-valued filter parameters. -/
def PyVal.toPyList : PyVal → List PyVal
  | .vlist xs => xs.map PyAtom.toVal
  | .vstr s => s.data.map (fun c => .vstr (String.mk [c]))
  | _ => []

/-- A minimal `json.dumps` used by the `json_contains` branch. -/
def jsonDumps : PyVal → String
  | .vnone => "null"
  | .vint n => toString n
  | .vstr s => "\"" ++ s ++ "\""
  | .vbool b => if b then "true" else "false"
  | .vlist xs =>
      "[" ++ String.intercalate ", " (xs.map (fun a => jsonDumpsAtom a)) ++ "]"
where
  jsonDumpsAtom : PyAtom → String
    | .anone => "null"
    | .aint n => toString n
    | .astr s => "\"" ++ s ++ "\""
    | .abool b => if b then "true" else "false"

/-- Character-list prefix test (avoids library name clashes). -/
def isPfx : List Char → List Char → Bool
  | [], _ => true
  | _ :: _, [] => false
  | a :: as, b :: bs => a = b && isPfx as bs

/-- Index of the last occurrence of `sep` inside `s`, if any. -/
def lastSepIndex (s sep : List Char) : Option Nat :=
  ((List.range (s.length + 1)).filter (fun i => isPfx sep (s.drop i))).getLast?

/-- Python `s.rsplit(sep, 1)`: split at the last occurrence of `sep`.
Returns `none` when `sep` does not occur (Python's `sep in s` is false). -/
def rsplitOnce (s sep : String) : Option (String × String) :=
  match lastSepIndex s.data sep.data with
  | some i =>
      some (String.mk (s.data.take i), String.mk (s.data.drop (i + sep.data.length)))
  | none => none

/-- The operator names recognised by `_parse_filter_key`. -/
def operatorNames : List String :=
  ["gt", "gte", "lt", "lte", "ne", "like", "ilike", "in", "notin",
   "isnull", "isnotnull", "contains", "icontains", "startswith",
   "istartswith", "endswith", "iendswith", "has_key", "json_contains"]

/-- `_parse_filter_key`: split a Django-style key into `(column, operator)`.
The operator NAME is returned, not its SQL; anything unrecognised is `eq`. -/
def parseFilterKey (key : String) : String × String :=
  match rsplitOnce key "__" with
  | some (c, o) => if o ∈ operatorNames then (c, o) else (key, "eq")
  | none => (key, "eq")

/-- `_build_json_path_sql`: JSON path access.
PostgreSQL chains `->` with a final `->>`; SQLite uses `json_extract`. -/
def buildJsonPathSql (col : String) (path : List String) (dialect : String) : String :=
  if dialect = "postgresql" then
    let n := path.length
    (path.enum.foldl
      (fun acc p =>
        let arrow := if p.1 + 1 = n then "->>" else "->"
        acc ++ arrow ++ "'" ++ p.2 ++ "'")
      col)
  else
    "json_extract(" ++ col ++ ", '$." ++ String.intercalate "." path ++ "')"

/-- The parameter placeholder: `$k` numbered from the running offset on
PostgreSQL, `?` on SQLite. -/
def placeholder (dialect : String) (paramOffset off : Nat) : String :=
  if dialect = "postgresql" then "$" ++ toString (paramOffset + off + 1) else "?"

/-- `_build_filter_sql`: compile one `(column, operator, value)` filter leaf to
an SQL fragment and its parameter list. -/
def buildFilterSql (col op : String) (value : PyVal) (dialect : String)
    (paramOffset : Nat) : String × List PyVal :=
  let ph := fun (off : Nat) => placeholder dialect paramOffset off
  -- JSON path detection: `column__key__subkey`
  let parts := col.splitOn "__"
  let col := parts.headD col
  let jsonPath : List String := parts.tail
  if op = "has_key" then
    if dialect = "postgresql" then
      (col ++ " ? " ++ ph 0, [value])
    else
      ("json_extract(" ++ col ++ ", '$." ++ pyStr value ++ "') IS NOT NULL", [])
  else if op = "json_contains" then
    if dialect = "postgresql" then
      (col ++ " @> " ++ ph 0 ++ "::jsonb", [.vstr (jsonDumps value)])
    else
      ("json(" ++ col ++ ") = json(" ++ ph 0 ++ ")", [.vstr (jsonDumps value)])
  else
  let colRef := if jsonPath.isEmpty then col else buildJsonPathSql col jsonPath dialect
  if op = "eq" then
    if value = .vnone then (colRef ++ " IS NULL", [])
    else (colRef ++ " = " ++ ph 0, [value])
  else if op = "in" then
    if ¬ value.truthy then ("1 = 0", [])
    else
      let xs := value.toPyList
      let phs := String.intercalate ", " ((List.range xs.length).map ph)
      (colRef ++ " IN (" ++ phs ++ ")", xs)
  else if op = "notin" then
    if ¬ value.truthy then ("1 = 1", [])
    else
      let xs := value.toPyList
      let phs := String.intercalate ", " ((List.range xs.length).map ph)
      (colRef ++ " NOT IN (" ++ phs ++ ")", xs)
  else if op = "isnull" then
    (if value.truthy then colRef ++ " IS NULL" else colRef ++ " IS NOT NULL", [])
  else if op = "isnotnull" then
    (if value.truthy then colRef ++ " IS NOT NULL" else colRef ++ " IS NULL", [])
  else if op = "contains" then
    if ¬ jsonPath.isEmpty then
      if dialect = "postgresql" then
        (colRef ++ " @> " ++ ph 0, [value])
      else
        let jsonPathStr := "$." ++ String.intercalate "." jsonPath
        ("EXISTS (SELECT 1 FROM json_each(" ++ col ++ ", '" ++ jsonPathStr ++
           "') WHERE value = " ++ ph 0 ++ ")", [value])
    else
      (colRef ++ " LIKE " ++ ph 0, [.vstr ("%" ++ pyStr value ++ "%")])
  else if op = "icontains" then
    let opSql := if dialect = "postgresql" then "ILIKE" else "LIKE"
    (colRef ++ " " ++ opSql ++ " " ++ ph 0, [.vstr ("%" ++ pyStr value ++ "%")])
  else if op = "startswith" then
    (colRef ++ " LIKE " ++ ph 0, [.vstr (pyStr value ++ "%")])
  else if op = "istartswith" then
    let opSql := if dialect = "postgresql" then "ILIKE" else "LIKE"
    (colRef ++ " " ++ opSql ++ " " ++ ph 0, [.vstr (pyStr value ++ "%")])
  else if op = "endswith" then
    (colRef ++ " LIKE " ++ ph 0, [.vstr ("%" ++ pyStr value)])
  else if op = "iendswith" then
    let opSql := if dialect = "postgresql" then "ILIKE" else "LIKE"
    (colRef ++ " " ++ opSql ++ " " ++ ph 0, [.vstr ("%" ++ pyStr value)])
  else
    let opSql :=
      if op = "gt" then ">"
      else if op = "gte" then ">="
      else if op = "lt" then "<"
      else if op = "lte" then "<="
      else if op = "ne" then "!="
      else if op = "like" then "LIKE"
      else if op = "ilike" then (if dialect = "postgresql" then "ILIKE" else "LIKE")
      else "="
    (colRef ++ " " ++ opSql ++ " " ++ ph 0, [value])
where
  /-- Python f-string interpolation of a value (used inside LIKE patterns). -/
  pyStr : PyVal → String
    | .vnone => "None"
    | .vint n => toString n
    | .vstr s => s
    | .vbool b => if b then "True" else "False"
    | .vlist _ => "[...]"

/-- The filter loop shared by `Q.to_sql`, `Query._build_where_clause` and the
HAVING loop: compile each leaf at the running parameter offset, collecting
fragments and parameters. -/
def filterLoop (dialect : String) :
    List (String × String × PyVal) → Nat → List String × List PyVal
  | [], _ => ([], [])
  | (c, o, v) :: rest, paramOffset =>
    let r := buildFilterSql c o v dialect paramOffset
    let rec' := filterLoop dialect rest (paramOffset + r.2.length)
    (r.1 :: rec'.1, r.2 ++ rec'.2)

/-- `Q` objects: composable boolean filter expressions. A node holds leaf
filters, child nodes tagged with their connector string, and a negation
flag (`session.Q`). -/
inductive Q where
  | node (filters : List (String × String × PyVal))
      (children : List (String × Q)) (negated : Bool)

mutual

/-- `Q.to_sql`: convert a `Q` object to an SQL WHERE fragment plus its
parameter list. -/
def Q.toSql (dialect : String) : Q → Nat → String × List PyVal
  | .node filters children negated, paramOffset =>
    let res : Option (String × List PyVal) :=
      if ¬ children.isEmpty then
        let r := Q.childLoop dialect children paramOffset
        if r.1.isEmpty then none
        else
          let connector :=
            match children with
            | ("OR", _) :: _ => " OR "
            | _ => " AND "
          some ("(" ++ String.intercalate connector r.1 ++ ")", r.2)
      else if ¬ filters.isEmpty then
        let r := filterLoop dialect filters paramOffset
        let sql := String.intercalate " AND " r.1
        some (if r.1.length > 1 then "(" ++ sql ++ ")" else sql, r.2)
      else none
    match res with
    | none => ("", [])
    | some r => (if negated then "NOT " ++ r.1 else r.1, r.2)

/-- The child loop of `Q.to_sql`: children producing an empty fragment are
skipped, others advance the parameter offset. -/
def Q.childLoop (dialect : String) :
    List (String × Q) → Nat → List String × List PyVal
  | [], _ => ([], [])
  | (_, child) :: rest, paramOffset =>
    let c := Q.toSql dialect child paramOffset
    if c.1 = "" then Q.childLoop dialect rest paramOffset
    else
      let r := Q.childLoop dialect rest (paramOffset + c.2.length)
      (c.1 :: r.1, c.2 ++ r.2)

end

/-- The `Q`-object loop of `Query._build_where_clause` and
`AsyncSession.bulk_update`: empty fragments are skipped. -/
def qLoop (dialect : String) : List Q → Nat → List String × List PyVal
  | [], _ => ([], [])
  | q :: rest, paramOffset =>
    let c := Q.toSql dialect q paramOffset
    if c.1 = "" then qLoop dialect rest paramOffset
    else
      let r := qLoop dialect rest (paramOffset + c.2.length)
      (c.1 :: r.1, c.2 ++ r.2)

/-- `Query._build_where_clause`: soft-delete predicate injection followed by
`Q` objects and simple filters, joined with AND. -/
def buildWhereClause (softDelete includeDeleted onlyDeleted : Bool)
    (qObjects : List Q) (filters : List (String × String × PyVal))
    (dialect : String) (paramOffset : Nat) : String × List PyVal :=
  let softParts : List String :=
    if softDelete then
      if ¬ includeDeleted then ["deleted_at IS NULL"]
      else if onlyDeleted then ["deleted_at IS NOT NULL"]
      else []
    else []
  let qr := qLoop dialect qObjects paramOffset
  let fr := filterLoop dialect filters (paramOffset + qr.2.length)
  let parts := softParts ++ qr.1 ++ fr.1
  if ¬ parts.isEmpty then
    (" WHERE " ++ String.intercalate " AND " parts, qr.2 ++ fr.2)
  else ("", [])

/-- Entity metadata used by the builders: table name, column descriptors
`(name, primary_key, autoincrement)`, primary-key attribute and the
`__soft_delete__` marker. -/
structure Model where
  name : String
  tablename : String
  columns : List (String × Bool × Bool)
  primaryKey : Option String
  softDelete : Bool
deriving Repr, DecidableEq

/-- A resolved relationship descriptor (`RelationshipInfo` after `resolve`). -/
structure RelInfo where
  uselist : Bool
  isManyToMany : Bool
  target : Option Model
  localFkCol : Option String
  remotePkCol : Option String
  secondary : String
  junctionLocalCol : Option String
  junctionRemoteCol : Option String
deriving Repr, DecidableEq

/-- JOIN metadata for an eager-joined relationship (`session.JoinInfo`). -/
structure JoinInfo where
  relName : String
  target : Model
  joinType : String
  localCol : String
  remoteCol : String
  aliasName : String
deriving Repr, DecidableEq

/-- The mutable description held by a `Query` object, together with the
session dialect and the model's resolved relationship map. -/
structure QueryState where
  model : Model
  relationships : List (String × RelInfo)
  filters : List (String × String × PyVal)
  qObjects : List Q
  order : List (String × String)
  limitVal : Option Int
  offsetVal : Option Int
  loadOptions : List (String × String)
  distinctFlag : Bool
  groupBy : List String
  having : List (String × String × PyVal)
  includeDeleted : Bool
  onlyDeleted : Bool
  dialect : String

/-- Python `a or b` over optional strings (`None` and `""` are falsy). -/
def pyOrStr : Option String → Option String → Option String
  | some s, b => if s = "" then b else some s
  | none, b => b

/-- Python falsiness of an optional string. -/
def strFalsy : Option String → Bool
  | some s => s = ""
  | none => true

/-- One iteration of the `Query._build_join_info` loop: a resolvable
many-to-one `joined` load option appends a LEFT-JOIN record and advances
the alias counter; everything else is skipped. -/
def joinStep (q : QueryState) (acc : List JoinInfo × Nat) (opt : String × String) :
    List JoinInfo × Nat :=
  if opt.2 ≠ "joined" then acc
  else
    match q.relationships.lookup opt.1 with
    | none => acc
    | some rel =>
      match rel.target with
      | none => acc
      | some target =>
        if rel.uselist then acc
        else
          let localCol := rel.localFkCol
          let remoteCol := pyOrStr rel.remotePkCol target.primaryKey
          if strFalsy localCol ∨ strFalsy remoteCol then acc
          else
            match localCol, remoteCol with
            | some lc, some rc =>
                (acc.1 ++ [⟨opt.1, target, "LEFT", lc, rc,
                    "_j" ++ toString acc.2⟩], acc.2 + 1)
            | _, _ => acc

/-- `Query._build_join_info`: one LEFT JOIN per resolvable many-to-one
`joined` load option, with aliases `_j1, _j2, …`. -/
def buildJoinInfo (q : QueryState) : List JoinInfo :=
  (q.loadOptions.foldl (joinStep q) ([], 1)).1

/-- The WHERE clause a `Query` uses, with the soft-delete flag read from the
model (`getattr(self._model, "__soft_delete__", False)`). -/
def queryWhereClause (q : QueryState) (paramOffset : Nat) : String × List PyVal :=
  buildWhereClause q.model.softDelete q.includeDeleted q.onlyDeleted
    q.qObjects q.filters q.dialect paramOffset

/-- ` LIMIT n` when a limit is set. -/
def limitClause : Option Int → String
  | some n => " LIMIT " ++ toString n
  | none => ""

/-- ` OFFSET n` when an offset is set. -/
def offsetClause : Option Int → String
  | some n => " OFFSET " ++ toString n
  | none => ""

/-- `Query._build_select_sql` up to (excluding) the LIMIT / OFFSET suffix. -/
def buildSelectSqlCore (q : QueryState) (columns : Option (List String)) :
    String × List PyVal :=
  let dialect := q.dialect
  let table := q.model.tablename
  let mainAlias := "_t0"
  let joinInfos := buildJoinInfo q
  let colStr :=
    match columns with
    | some cols =>
        String.intercalate ", "
          (cols.map (fun c => if ¬ joinInfos.isEmpty then mainAlias ++ "." ++ c else c))
    | none =>
        let mainCols :=
          if ¬ joinInfos.isEmpty then
            q.model.columns.map (fun c => mainAlias ++ "." ++ c.1 ++ " AS " ++ c.1)
          else q.model.columns.map (·.1)
        let joinedCols := joinInfos.foldl
          (fun acc ji =>
            acc ++ ji.target.columns.map (fun c =>
              ji.aliasName ++ "." ++ c.1 ++ " AS " ++ ji.aliasName ++ "_" ++ c.1))
          []
        String.intercalate ", " (mainCols ++ joinedCols)
  let distinctStr := if q.distinctFlag then "DISTINCT " else ""
  let fromSql :=
    if ¬ joinInfos.isEmpty then
      joinInfos.foldl
        (fun acc ji =>
          acc ++ " " ++ ji.joinType ++ " JOIN " ++ ji.target.tablename ++ " AS " ++
            ji.aliasName ++ " ON " ++ mainAlias ++ "." ++ ji.localCol ++ " = " ++
            ji.aliasName ++ "." ++ ji.remoteCol)
        ("SELECT " ++ distinctStr ++ colStr ++ " FROM " ++ table ++ " AS " ++ mainAlias)
    else "SELECT " ++ distinctStr ++ colStr ++ " FROM " ++ table
  let wr := queryWhereClause q 0
  let sql := fromSql ++ wr.1
  let params := wr.2
  let sql :=
    if ¬ q.groupBy.isEmpty then sql ++ " GROUP BY " ++ String.intercalate ", " q.groupBy
    else sql
  let hr :=
    if ¬ q.having.isEmpty then
      let fr := filterLoop dialect q.having params.length
      (sql ++ " HAVING " ++ String.intercalate " AND " fr.1, params ++ fr.2)
    else (sql, params)
  let sql :=
    if ¬ q.order.isEmpty then
      hr.1 ++ " ORDER BY " ++
        String.intercalate ", " (q.order.map (fun p => p.1 ++ " " ++ p.2))
    else hr.1
  (sql, hr.2)

/-- `Query._build_select_sql`: the core followed by LIMIT and OFFSET. -/
def buildSelectSql (q : QueryState) (columns : Option (List String)) :
    String × List PyVal :=
  let core := buildSelectSqlCore q columns
  (core.1 ++ limitClause q.limitVal ++ offsetClause q.offsetVal, core.2)

/-- `Query._build_aggregate_sql` (used by `count`, `sum`, `avg`, `min`,
`max`, and through `count` by `exists`). -/
def buildAggregateSql (q : QueryState) (aggExpr rName : String) : String × List PyVal :=
  let sql := "SELECT " ++ aggExpr ++ " as " ++ rName ++ " FROM " ++ q.model.tablename
  let w := queryWhereClause q 0
  (sql ++ w.1, w.2)

/-- `Query._build_delete_sql`. -/
def buildDeleteSql (q : QueryState) : String × List PyVal :=
  let sql := "DELETE FROM " ++ q.model.tablename
  let w := queryWhereClause q 0
  (sql ++ w.1, w.2)

/-- The SET-clause loop of `AsyncSession.update` / `bulk_update`. -/
def setClauseLoop (dialect : String) : List (String × PyVal) → Nat → List String × List PyVal
  | [], _ => ([], [])
  | (k, v) :: rest, nparams =>
    let part :=
      if dialect = "postgresql" then k ++ " = $" ++ toString (nparams + 1)
      else k ++ " = ?"
    let r := setClauseLoop dialect rest (nparams + 1)
    (part :: r.1, v :: r.2)

/-- The keyword-filter loop of `AsyncSession.bulk_update`: each key is parsed
with `_parse_filter_key` and compiled. -/
def kwargLoop (dialect : String) : List (String × PyVal) → Nat → List String × List PyVal
  | [], _ => ([], [])
  | (key, v) :: rest, paramOffset =>
    let p := parseFilterKey key
    let c := buildFilterSql p.1 p.2 v dialect paramOffset
    let r := kwargLoop dialect rest (paramOffset + c.2.length)
    (c.1 :: r.1, c.2 ++ r.2)

/-- `AsyncSession.bulk_update`: SET clause, then a WHERE built from `Q`
conditions and keyword filters only — no soft-delete injection. -/
def bulkUpdateSql (model : Model) (values : List (String × PyVal))
    (conditions : List Q) (kwargs : List (String × PyVal)) (dialect : String) :
    String × List PyVal :=
  let sr := setClauseLoop dialect values 0
  let sql := "UPDATE " ++ model.tablename ++ " SET " ++ String.intercalate ", " sr.1
  let qr := qLoop dialect conditions sr.2.length
  let kr := kwargLoop dialect kwargs (sr.2.length + qr.2.length)
  let whereParts := qr.1 ++ kr.1
  let params := sr.2 ++ qr.2 ++ kr.2
  if ¬ whereParts.isEmpty then
    (sql ++ " WHERE " ++ String.intercalate " AND " whereParts, params)
  else (sql, params)

/-- The kwargs `Query.update` reconstructs from its stored filters before
delegating to `bulk_update`. -/
def reconstructKwargs (filters : List (String × String × PyVal)) :
    List (String × PyVal) :=
  filters.map (fun f => (if f.2.1 = "eq" then f.1 else f.1 ++ "__" ++ f.2.1, f.2.2))

/-- `Query.update`: delegates to `bulk_update` with the query's `Q` objects
and reconstructed keyword filters (the soft-delete flags are not passed). -/
def queryUpdateSql (q : QueryState) (values : List (String × PyVal)) :
    String × List PyVal :=
  bulkUpdateSql q.model values q.qObjects (reconstructKwargs q.filters) q.dialect

/-- The fresh per-batch query `Query.stream` builds: filters, `Q` objects,
ordering, DISTINCT, GROUP BY, HAVING and load options are copied; the
soft-delete flags are left at their defaults. -/
def streamBatchQuery (q : QueryState) (batchSize offset : Int) : QueryState :=
  { model := q.model, relationships := q.relationships, filters := q.filters,
    qObjects := q.qObjects, order := q.order, limitVal := some batchSize,
    offsetVal := some offset, loadOptions := q.loadOptions,
    distinctFlag := q.distinctFlag, groupBy := q.groupBy, having := q.having,
    includeDeleted := false, onlyDeleted := false, dialect := q.dialect }

/-- The state of the query object after `Query.first` ran: the limit is set
to 1 in place and never restored. -/
def firstQueryState (q : QueryState) : QueryState :=
  { q with limitVal := some 1 }

/-! ### Relationship loader: SQL round-trip counting

A hydrated parent instance is modelled by its attribute map: a key being
present models `hasattr`, an inner `none` models a `None` attribute value.
The junction-table contents (the only database response whose shape decides
how many follow-up statements the loader issues) are passed in as a map from
junction-table name to `(local, remote)` rows. -/

/-- A hydrated parent instance as the loader sees it. -/
structure Inst where
  attrs : List (String × Option Int)
deriving Repr, DecidableEq

/-- Number of `pool.execute` calls `Query._load_selectin` issues for one
relationship entry (dispatching to `_load_selectin_m2m` for many-to-many). -/
def selectinQueryCount (model : Model) (rel : RelInfo) (instances : List Inst)
    (junctionDb : String → List (Option Int × Option Int)) : Nat :=
  match rel.target with
  | none => 0
  | some target =>
    if rel.isManyToMany then
      if strFalsy model.primaryKey then 0
      else
      match model.primaryKey with
      | none => 0
      | some pkCol =>
        if strFalsy rel.junctionLocalCol ∨ strFalsy rel.junctionRemoteCol ∨
            strFalsy target.primaryKey then 0
        else
          let parentIds := instances.filterMap (fun i =>
            match i.attrs.lookup pkCol with
            | some (some v) => some v
            | _ => none)
          if parentIds.isEmpty then 0
          else
            let rows := junctionDb rel.secondary
            let targetIdsNeeded := rows.filterMap (fun r =>
              match r.1 with
              | some p => if p ∈ parentIds then some r.2 else none
              | none => none)
            if targetIdsNeeded.isEmpty then 1 else 2
    else if rel.uselist then
      let fkCol := rel.localFkCol
      let pkCol := pyOrStr rel.remotePkCol model.primaryKey
      if strFalsy fkCol ∨ strFalsy pkCol then 0
      else
        match pkCol with
        | none => 0
        | some pk =>
          let parentIds := instances.filterMap (fun i => i.attrs.lookup pk)
          if parentIds.isEmpty then 0 else 1
    else
      let fkCol := rel.localFkCol
      let remotePk := pyOrStr rel.remotePkCol target.primaryKey
      if strFalsy fkCol ∨ strFalsy remotePk then 0
      else
        match fkCol with
        | none => 0
        | some fk =>
          let fkValues := instances.filterMap (fun i =>
            match i.attrs.lookup fk with
            | some (some v) => some v
            | _ => none)
          if fkValues.isEmpty then 0 else 1

/-- Follow-up statements one load-plan entry causes inside
`Query._apply_load_options`: entries naming no relationship are skipped,
entries already covered by a JOIN are skipped, `selectin` and `joined`
entries go through `_load_selectin`, `noload` and unknown strategies issue
nothing. -/
def loadOptionCost (q : QueryState) (instances : List Inst)
    (junctionDb : String → List (Option Int × Option Int))
    (joinedRelNames : List String) (opt : String × String) : Nat :=
  match q.relationships.lookup opt.1 with
  | none => 0
  | some rel =>
    if opt.1 ∈ joinedRelNames then 0
    else if opt.2 = "selectin" ∨ opt.2 = "joined" then
      selectinQueryCount q.model rel instances junctionDb
    else 0

/-- Number of follow-up statements `Query._apply_load_options` issues. -/
def applyLoadOptionsCost (q : QueryState) (instances : List Inst)
    (junctionDb : String → List (Option Int × Option Int)) : Nat :=
  if instances.isEmpty ∨ q.loadOptions.isEmpty then 0
  else
    let joinedRelNames := (buildJoinInfo q).map (·.relName)
    (q.loadOptions.map (loadOptionCost q instances junctionDb joinedRelNames)).sum

/-- Total `pool.execute` calls of an executed `Query.all()`: one base SELECT
(`Query._execute`) plus the loader's follow-ups. -/
def totalSelectQueries (q : QueryState) (instances : List Inst)
    (junctionDb : String → List (Option Int × Option Int)) : Nat :=
  1 + applyLoadOptionsCost q instances junctionDb

/-! ### `AsyncSession.get` and the identity map

Instances are identified by a reference id freshly allocated whenever a
result row is hydrated; `sqlCount` counts `pool.execute` round-trips. The
database is a map from `(model name, primary key)` to the row's
`deleted_at` column. -/

/-- A live instance: its Python object identity plus the one column
`session.get` inspects. -/
structure InstRef where
  refId : Nat
  deletedAt : Option Int
deriving Repr, DecidableEq

/-- Session state relevant to `get`: the identity map, a fresh-reference
counter and the number of SQL statements issued so far. -/
structure SessionState where
  identityMap : List ((String × Int) × InstRef)
  nextRef : Nat
  sqlCount : Nat
deriving Repr, DecidableEq

/-- `AsyncSession.get`: identity map first (no SQL on a hit); on a miss, a
`ValueError` if the model has no primary key (`none` result), else one
SELECT filtered by the soft-delete predicate, caching a freshly hydrated
instance when a row is found. -/
def sessionGet (model : Model) (id : Int) (includeDeleted : Bool)
    (db : String → Int → Option (Option Int)) (st : SessionState) :
    Option (Option InstRef × SessionState) :=
  let key := (model.name, id)
  match st.identityMap.lookup key with
  | some inst =>
    if ¬ includeDeleted ∧ model.softDelete ∧ inst.deletedAt ≠ none then
      some (none, st)
    else some (some inst, st)
  | none =>
    match model.primaryKey with
    | none => none
    | some _ =>
      let st1 : SessionState := { st with sqlCount := st.sqlCount + 1 }
      let row? : Option (Option Int) :=
        match db model.name id with
        | some deletedAt =>
          if model.softDelete ∧ ¬ includeDeleted ∧ deletedAt ≠ none then none
          else some deletedAt
        | none => none
      match row? with
      | some deletedAt =>
        let inst : InstRef := { refId := st1.nextRef, deletedAt := deletedAt }
        some (some inst,
          { identityMap := (key, inst) :: st1.identityMap,
            nextRef := st1.nextRef + 1, sqlCount := st1.sqlCount })
      | none => some (none, st1)

/-! ### Batched insert flushing -/

/-- The insertable columns: every column except an autoincrement primary key
(`AsyncSession._batch_insert`). -/
def insertColumns (model : Model) : List String :=
  (model.columns.filter (fun c => ¬ (c.2.1 ∧ c.2.2))).map (·.1)

/-- Consecutive chunks of at most `n` elements (the slices
`instances[batch_start:batch_start + batch_size]`). -/
def chunkList {α : Type} (n : Nat) (xs : List α) : List (List α) :=
  if h : xs.isEmpty ∨ n = 0 then [] else xs.take n :: chunkList n (xs.drop n)
termination_by xs.length
decreasing_by
  simp only [List.isEmpty_iff, not_or] at h
  have hx : 0 < xs.length := List.length_pos.mpr h.1
  have hn : 0 < n := Nat.pos_of_ne_zero h.2
  simpa [List.length_drop] using Nat.sub_lt hx hn

/-- `AsyncSession._batch_insert`: group the pending instances of one entity
into batches. `none` models the `ValueError` Python's `range` raises when
the computed batch size is zero (more columns than the parameter budget). -/
def batchInsertBatches {α : Type} (model : Model) (instances : List α)
    (dialect : String) : Option (List (List α)) :=
  if instances.isEmpty then some []
  else
    let columns := insertColumns model
    if columns.isEmpty then some []
    else
      let maxParams := if dialect = "sqlite" then 900 else 30000
      let batchSize := maxParams / columns.length
      if batchSize = 0 then none
      else some (chunkList batchSize instances)

/-- Per-instance placeholder/parameter accumulation of
`AsyncSession._insert_batch` (parameters numbered by the running total). -/
def insertColLoop (dialect : String) (inst : List (String × PyVal)) :
    List String → Nat → List String × List PyVal
  | [], _ => ([], [])
  | col :: rest, nparams =>
    let ph := if dialect = "postgresql" then "$" ++ toString (nparams + 1) else "?"
    let v := (inst.lookup col).getD .vnone
    let r := insertColLoop dialect inst rest (nparams + 1)
    (ph :: r.1, v :: r.2)

/-- The VALUES groups of `AsyncSession._insert_batch`. -/
def valuesGroups (dialect : String) (columns : List String) :
    List (List (String × PyVal)) → Nat → List String × List PyVal
  | [], _ => ([], [])
  | inst :: rest, nparams =>
    let c := insertColLoop dialect inst columns nparams
    let group := "(" ++ String.intercalate ", " c.1 ++ ")"
    let r := valuesGroups dialect columns rest (nparams + c.2.length)
    (group :: r.1, c.2 ++ r.2)

/-- `AsyncSession._insert_batch`: the single multi-VALUES INSERT statement
issued for one batch, with `RETURNING pk` when the model has a primary key. -/
def insertBatchSql (model : Model) (batch : List (List (String × PyVal)))
    (columns : List String) (dialect : String) : String × List PyVal :=
  let g := valuesGroups dialect columns batch 0
  let sql := "INSERT INTO " ++ model.tablename ++ " (" ++
    String.intercalate ", " columns ++ ") VALUES " ++ String.intercalate ", " g.1
  match model.primaryKey with
  | some pk => (sql ++ " RETURNING " ++ pk, g.2)
  | none => (sql, g.2)

/-! ### Joined-load hydration -/

/-- A result row: column name to nullable value (`none` is SQL NULL; a
missing key models a column absent from the row dict). -/
abbrev Row := List (String × Option PyVal)

/-- The per-join extraction loop of `ScalarResult._hydrate_with_joins`:
collect the aliased columns present in the row and track whether any of
them is non-NULL. -/
def hydrateJoinData (row : Row) (ji : JoinInfo) : Row × Bool :=
  ji.target.columns.foldl
    (fun (acc : Row × Bool) c =>
      let key := ji.aliasName ++ "_" ++ c.1
      match row.lookup key with
      | some v => (acc.1 ++ [(c.1, v)], acc.2 || v.isSome)
      | none => acc)
    ([], false)

/-- A hydrated parent: its own column data plus one relationship slot per
join (`none` = outer-join miss, `some d` = target instance built from the
aliased column data `d`). -/
structure HydratedInst where
  mainData : Row
  rels : List (String × Option Row)
deriving Repr, DecidableEq

/-- `ScalarResult._hydrate_with_joins`. -/
def hydrateWithJoins (model : Model) (joinInfos : List JoinInfo)
    (rows : List Row) : List HydratedInst :=
  rows.map (fun row =>
    { mainData := model.columns.filterMap (fun c =>
        match row.lookup c.1 with
        | some v => some (c.1, v)
        | none => none),
      rels := joinInfos.map (fun ji =>
        let r := hydrateJoinData row ji
        (ji.relName, if r.2 then some r.1 else none)) })

/-! ### Migration runner

A migration script's two operation closures are modelled by the SQL
statements they produce, or the exception they raise (`.error`). Database
state is the version table's rows plus the log of executed statements. -/

/-- Python `str.startswith`, as a structural prefix test on the character
lists (kernel-reducible, unlike `String.startsWith`). -/
def pyStartsWith (s pre : String) : Bool := isPfx pre.data s.data

/-- One decimal digit. -/
def charDigit (c : Char) : Option Nat :=
  if c = '0' then some 0 else if c = '1' then some 1 else if c = '2' then some 2
  else if c = '3' then some 3 else if c = '4' then some 4 else if c = '5' then some 5
  else if c = '6' then some 6 else if c = '7' then some 7 else if c = '8' then some 8
  else if c = '9' then some 9 else none

/-- Accumulate decimal digits. -/
def digitsVal : List Char → Option Nat → Option Nat
  | [], acc => acc
  | c :: cs, acc =>
    match acc, charDigit c with
    | some n, some d => digitsVal cs (some (n * 10 + d))
    | _, _ => none

/-- Python `int(s)` on optionally negated decimal strings (the only inputs
the runner feeds it); anything else is a parse failure (`ValueError`). -/
def pyToInt (s : String) : Option Int :=
  match s.data with
  | '-' :: rest =>
    if rest.isEmpty then none
    else (digitsVal rest (some 0)).map (fun n => -(n : Int))
  | cs =>
    if cs.isEmpty then none
    else (digitsVal cs (some 0)).map (fun n => (n : Int))

deriving instance DecidableEq for Except

/-- A loaded migration script. -/
structure Script where
  revision : String
  downRevision : Option String
  upgradeStmts : Except String (List String)
  downgradeStmts : Except String (List String)
deriving Repr, DecidableEq

/-- Database state as the runner observes it. -/
structure DbState where
  versionTable : List String
  executed : List String
deriving Repr, DecidableEq

/-- `MigrationRunner._apply_migration`: run the script's operation closure
(propagating its exception), execute the non-empty statements, then INSERT
the revision (upgrade) or DELETE it (downgrade). -/
def applyMigration (script : Script) (direction : String) (st : DbState) :
    DbState × Option String :=
  let opsResult :=
    if direction = "upgrade" then script.upgradeStmts else script.downgradeStmts
  match opsResult with
  | .error e => (st, some e)
  | .ok stmts =>
    let st := { st with executed := st.executed ++ stmts.filter (fun s => s ≠ "") }
    if direction = "upgrade" then
      ({ st with versionTable := st.versionTable ++ [script.revision] }, none)
    else
      ({ st with versionTable := st.versionTable.filter (fun r => r ≠ script.revision) }, none)

/-- Last-binding association lookup (Python dict comprehensions let a later
duplicate key overwrite an earlier one). -/
def lookupLast (l : List (String × Script)) (k : String) : Option Script :=
  l.reverse.lookup k

/-- The recursive `visit` of `MigrationRunner._sort_migrations`, made total
with fuel (the Python recursion is bounded by the visited set). A falsy
(`None` or empty) down-revision, or one with no matching script, is
silently skipped. -/
def visitFuel (byRev : List (String × Script)) :
    Nat → Script → List String × List Script → List String × List Script
  | 0, _, acc => acc
  | Nat.succ fuel, script, (visited, sorted) =>
    if script.revision ∈ visited then (visited, sorted)
    else
      let visited' := script.revision :: visited
      match script.downRevision with
      | some d =>
        if d = "" then (visited', sorted ++ [script])
        else
          match lookupLast byRev d with
          | some parent =>
            let r := visitFuel byRev fuel parent (visited', sorted)
            (r.1, r.2 ++ [script])
          | none => (visited', sorted ++ [script])
      | none => (visited', sorted ++ [script])

/-- `MigrationRunner._sort_migrations`: dependency-order topological sort. -/
def sortMigrations (scripts : List Script) : List Script :=
  let byRev := scripts.map (fun s => (s.revision, s))
  (scripts.foldl (fun acc s => visitFuel byRev (scripts.length + 1) s acc) ([], [])).2

/-- `MigrationRunner.load_migrations` over already-parsed scripts. -/
def loadMigrations (scripts : List Script) : List Script :=
  sortMigrations scripts

/-- The for-loop of `MigrationRunner.upgrade`, including both
target-reached break conditions. An exception from a script aborts the loop
(the Python exception propagates). -/
def upgradeLoop (target : String) : List Script → List Script → DbState →
    List Script × DbState × Option String
  | [], applied, st => (applied, st, none)
  | script :: rest, applied, st =>
    if target ≠ "head" ∧ ¬ applied.isEmpty ∧
        applied.any (fun s => pyStartsWith s.revision target) then
      (applied, st, none)
    else
      match applyMigration script "upgrade" st with
      | (st', some e) => (applied, st', some e)
      | (st', none) =>
        let applied' := applied ++ [script]
        if target ≠ "head" ∧ pyStartsWith script.revision target then
          (applied', st', none)
        else
          upgradeLoop target rest applied' st'

/-- `MigrationRunner.upgrade`: pending = sorted load minus applied
revisions, then the loop. -/
def runnerUpgrade (scripts : List Script) (target : String) (st : DbState) :
    List Script × DbState × Option String :=
  let applied := st.versionTable
  let pending := (loadMigrations scripts).filter (fun m => m.revision ∉ applied)
  if pending.isEmpty then ([], st, none)
  else upgradeLoop target pending [] st

/-- How many migrations `MigrationRunner.downgrade` rolls back for a given
target (`-N`, or scan for a specific revision). -/
def downgradeCount (target : String) (applied : List String) : Nat :=
  if pyStartsWith target "-" then
    match pyToInt target with
    | some k => k.natAbs
    | none => 1
  else
    match applied.reverse.enum.find? (fun p => pyStartsWith p.2 target) with
    | some p => p.1
    | none => applied.length

/-- The rollback loop of `MigrationRunner.downgrade`; an exception
propagates with the state reached so far. -/
def downgradeLoop : List Script → DbState → List Script × DbState × Option String
  | [], st => ([], st, none)
  | script :: rest, st =>
    match applyMigration script "downgrade" st with
    | (st', some e) => ([], st', some e)
    | (st', none) =>
      let r := downgradeLoop rest st'
      (script :: r.1, r.2)

/-- `MigrationRunner.downgrade`. -/
def runnerDowngrade (scripts : List Script) (target : String) (st : DbState) :
    List Script × DbState × Option String :=
  let applied := st.versionTable
  if applied.isEmpty then ([], st, none)
  else
    let allMigrations := loadMigrations scripts
    let byRevision := allMigrations.map (fun m => (m.revision, m))
    let count := downgradeCount target applied
    let appliedScripts :=
      ((applied.filterMap (fun r => lookupLast byRevision r)).reverse).take count
    downgradeLoop appliedScripts st

/-! ## Concrete fixtures used by counterexamples and witnesses -/

/-- A soft-delete entity (`Article` with `SoftDeleteMixin`). -/
def articleModel : Model :=
  { name := "Article", tablename := "articles",
    columns := [("id", true, true), ("title", false, false), ("deleted_at", false, false)],
    primaryKey := some "id", softDelete := true }

/-- A plain entity (`User`). -/
def userModel : Model :=
  { name := "User", tablename := "users",
    columns := [("id", true, true), ("name", false, false), ("email", false, false)],
    primaryKey := some "id", softDelete := false }

/-- A plain entity (`Post`, many-to-one towards `User`). -/
def postModel : Model :=
  { name := "Post", tablename := "posts",
    columns := [("id", true, true), ("title", false, false), ("author_id", false, false)],
    primaryKey := some "id", softDelete := false }

/-- A freshly built `Query` over a model: every field at its `__init__`
default. -/
def defaultQuery (m : Model) (rels : List (String × RelInfo)) (dialect : String) :
    QueryState :=
  { model := m, relationships := rels, filters := [], qObjects := [], order := [],
    limitVal := none, offsetVal := none, loadOptions := [], distinctFlag := false,
    groupBy := [], having := [], includeDeleted := false, onlyDeleted := false,
    dialect := dialect }

/-! ## C7 -/

/-- C7: a filter compiled with the `in` operator and an empty collection
emits the constant-false condition `1 = 0` with no parameters, and `notin`
with an empty collection emits the constant-true `1 = 1` with no
parameters; neither case errors (`_build_filter_sql` is total here). -/
theorem c7_empty_in_notin (col dialect : String) (paramOffset : Nat) :
    buildFilterSql col "in" (.vlist []) dialect paramOffset = ("1 = 0", []) ∧
    buildFilterSql col "notin" (.vlist []) dialect paramOffset = ("1 = 1", []) := by
  constructor <;> simp [buildFilterSql, PyVal.truthy]

/-! ## C10 -/

/-- C10: `Query.first` permanently sets the query's limit to 1 in place, so
any subsequent terminal call on the same `Query` object builds its SELECT
with a ` LIMIT 1` suffix (before any OFFSET): `first` is not
side-effect-free on the query description. -/
theorem c10_first_sets_limit_permanently (q : QueryState) (cols : Option (List String)) :
    (firstQueryState q).limitVal = some 1 ∧
    (buildSelectSql (firstQueryState q) cols).1 =
      (buildSelectSqlCore (firstQueryState q) cols).1 ++ " LIMIT 1" ++
        offsetClause q.offsetVal := by
  exact ⟨rfl, rfl⟩

/-! ## C2 -/

/-- When the `Q`-object loop produced no fragments it also produced no
parameters. -/
theorem qLoop_nil_params (dialect : String) :
    ∀ (l : List Q) (off : Nat), (qLoop dialect l off).1 = [] →
      (qLoop dialect l off).2 = [] := by
  intro l
  induction l with
  | nil => intro _ _; rfl
  | cons q rest ih =>
    intro off h
    by_cases hq : (Q.toSql dialect q off).1 = ""
    · simpa [qLoop, hq] using ih off (by simpa [qLoop, hq] using h)
    · simp [qLoop, hq] at h

/-- The filter loop emits one fragment per filter. -/
theorem filterLoop_length (dialect : String) :
    ∀ (fs : List (String × String × PyVal)) (off : Nat),
      (filterLoop dialect fs off).1.length = fs.length := by
  intro fs
  induction fs with
  | nil => intro _; rfl
  | cons f rest ih => intro off; simp [filterLoop, ih]

/-- Round-trip of `Query.update`'s kwargs reconstruction: for filters whose
reconstructed key re-parses to the same `(column, operator)` pair,
`bulk_update`'s keyword loop equals the WHERE-builder's filter loop. -/
theorem kwargLoop_reconstruct (dialect : String) :
    ∀ (fs : List (String × String × PyVal)),
      (∀ f ∈ fs, parseFilterKey (if f.2.1 = "eq" then f.1 else f.1 ++ "__" ++ f.2.1) =
        (f.1, f.2.1)) →
      ∀ off, kwargLoop dialect (reconstructKwargs fs) off = filterLoop dialect fs off := by
  intro fs
  induction fs with
  | nil => intro _ _; rfl
  | cons f rest ih =>
    intro h off
    have hf := h f (List.mem_cons_self _ _)
    have hrest := fun g hg => h g (List.mem_cons_of_mem _ hg)
    simp only [reconstructKwargs, List.map_cons] at *
    simp only [kwargLoop, filterLoop, hf, ih hrest]

/-- When the filter loop produced no fragments it also produced no
parameters. -/
theorem filterLoop_nil_params (dialect : String) :
    ∀ (fs : List (String × String × PyVal)) (off : Nat),
      (filterLoop dialect fs off).1 = [] → (filterLoop dialect fs off).2 = [] := by
  intro fs off h
  cases fs with
  | nil => rfl
  | cons f rest => simp [filterLoop] at h

/-- Splitting the shared WHERE-assembly step: appending the WHERE fragment
to the base statement commutes with assembling it separately. -/
theorem whereAssemblySplit (base : String) (sp : List PyVal)
    (qr fr : List String × List PyVal)
    (hq : qr.1 = [] → qr.2 = []) (hf : fr.1 = [] → fr.2 = []) :
    (if ¬ (qr.1 ++ fr.1).isEmpty then
        (base ++ " WHERE " ++ String.intercalate " AND " (qr.1 ++ fr.1),
          sp ++ qr.2 ++ fr.2)
      else (base, sp ++ qr.2 ++ fr.2)) =
    (base ++ (if ¬ (qr.1 ++ fr.1).isEmpty then
        (" WHERE " ++ String.intercalate " AND " (qr.1 ++ fr.1), qr.2 ++ fr.2)
      else ("", ([] : List PyVal))).1,
     sp ++ (if ¬ (qr.1 ++ fr.1).isEmpty then
        (" WHERE " ++ String.intercalate " AND " (qr.1 ++ fr.1), qr.2 ++ fr.2)
      else ("", [])).2) := by
  by_cases hparts : (qr.1 ++ fr.1).isEmpty
  · rw [List.isEmpty_iff] at hparts
    have h1 := (List.append_eq_nil.mp hparts).1
    have h2 := (List.append_eq_nil.mp hparts).2
    simp [h1, h2, hq h1, hf h2]
  · simp [hparts, List.append_assoc, String.append_assoc]

/-- C2 (counterexample): for the soft-delete entity `Article`, the default
select's WHERE clause excludes soft-deleted rows, but `Query.update` (which
delegates to `bulk_update`) emits an UPDATE whose SQL mentions `deleted_at`
nowhere — it does not apply the soft-delete predicate the claim asserts. -/
theorem c2_update_lacks_soft_delete_filter :
    (buildSelectSql (defaultQuery articleModel [] "sqlite") none).1 =
      "SELECT id, title, deleted_at FROM articles WHERE deleted_at IS NULL" ∧
    (queryUpdateSql (defaultQuery articleModel [] "sqlite")
        [("title", .vstr "x")]).1 = "UPDATE articles SET title = ?" ∧
    ¬ ("deleted_at".data <:+: (queryUpdateSql (defaultQuery articleModel [] "sqlite")
        [("title", .vstr "x")]).1.data) := by
  refine ⟨rfl, rfl, by decide⟩

/-- C2 (amended): `count` (hence `exists`), `delete` and the default select
all build their WHERE through the same `_build_where_clause`, so they apply
the identical soft-delete predicate with `with_deleted` / `only_deleted`
respected; `stream`'s per-batch queries rebuild the WHERE with the
soft-delete flags reset to their defaults (deleted rows are always
excluded, even after `with_deleted()` / `only_deleted()`); and
`Query.update` builds its WHERE with no soft-delete injection at all. -/
theorem c2_soft_delete_terminals :
    (∀ q aggExpr rName, buildAggregateSql q aggExpr rName =
       ("SELECT " ++ aggExpr ++ " as " ++ rName ++ " FROM " ++ q.model.tablename ++
          (queryWhereClause q 0).1, (queryWhereClause q 0).2)) ∧
    (∀ q, buildDeleteSql q =
       ("DELETE FROM " ++ q.model.tablename ++ (queryWhereClause q 0).1,
        (queryWhereClause q 0).2)) ∧
    (∀ q batchSize offset, queryWhereClause (streamBatchQuery q batchSize offset) 0 =
       buildWhereClause q.model.softDelete false false q.qObjects q.filters q.dialect 0) ∧
    (∀ q values,
       (∀ f ∈ q.filters,
          parseFilterKey (if f.2.1 = "eq" then f.1 else f.1 ++ "__" ++ f.2.1) =
            (f.1, f.2.1)) →
       queryUpdateSql q values =
         ("UPDATE " ++ q.model.tablename ++ " SET " ++
            String.intercalate ", " (setClauseLoop q.dialect values 0).1 ++
            (buildWhereClause false false false q.qObjects q.filters q.dialect
              (setClauseLoop q.dialect values 0).2.length).1,
          (setClauseLoop q.dialect values 0).2 ++
            (buildWhereClause false false false q.qObjects q.filters q.dialect
              (setClauseLoop q.dialect values 0).2.length).2)) := by
  refine ⟨fun _ _ _ => rfl, fun _ => rfl, fun _ _ _ => rfl, ?_⟩
  intro q values hcanon
  show bulkUpdateSql q.model values q.qObjects (reconstructKwargs q.filters) q.dialect = _
  simp only [bulkUpdateSql, buildWhereClause,
    kwargLoop_reconstruct q.dialect q.filters hcanon, List.nil_append]
  exact whereAssemblySplit _ _ _ _
    (qLoop_nil_params q.dialect q.qObjects _)
    (filterLoop_nil_params q.dialect q.filters _)

/-- C2 witness: the amended statement evaluated on the `Article` fixture —
`count` keeps the soft-delete exclusion, `update` emits none. -/
theorem c2_soft_delete_terminals_witness :
    buildAggregateSql (defaultQuery articleModel [] "sqlite") "COUNT(*)" "count" =
      ("SELECT COUNT(*) as count FROM articles WHERE deleted_at IS NULL", []) ∧
    queryUpdateSql (defaultQuery articleModel [] "sqlite") [("title", .vstr "x")] =
      ("UPDATE articles SET title = ?", [.vstr "x"]) := by
  constructor
  · rw [c2_soft_delete_terminals.1]
    rfl
  · rw [c2_soft_delete_terminals.2.2.2 (defaultQuery articleModel [] "sqlite")
      [("title", .vstr "x")] (by intro f hf; simp [defaultQuery] at hf)]
    rfl

/-! ## C9 -/

/-- Characterisation of the `has_data` flag computed by the per-join fold:
it is true exactly when some aliased column present in the row holds a
non-NULL value. -/
theorem hydrateJoinData_hasData (row : Row) (an : String) :
    ∀ (cols : List (String × Bool × Bool)) (acc : Row × Bool),
      (cols.foldl (fun (acc : Row × Bool) c =>
        match row.lookup (an ++ "_" ++ c.1) with
        | some v => (acc.1 ++ [(c.1, v)], acc.2 || v.isSome)
        | none => acc) acc).2 = true ↔
      (acc.2 = true ∨ ∃ c ∈ cols, ((row.lookup (an ++ "_" ++ c.1)).join).isSome = true) := by
  intro cols
  induction cols with
  | nil => intro acc; simp
  | cons c rest ih =>
    intro acc
    simp only [List.foldl_cons]
    cases hc : row.lookup (an ++ "_" ++ c.1) with
    | none =>
      rw [ih]
      simp [hc]
    | some v =>
      rw [ih]
      cases v <;> simp [hc, or_assoc]

/-- C9: a row hydrated from a joined-load query gets, for each join, its
relationship slot set to `None` exactly when every aliased column of the
joined table present in the row is NULL, and otherwise to an instance built
from those aliased columns (`ScalarResult._hydrate_with_joins`). -/
theorem c9_joined_null_hydration (model : Model) (jis : List JoinInfo)
    (rows : List Row) (i : Nat) (hi : i < rows.length) (ji : JoinInfo)
    (hji : ji ∈ jis) :
    ∃ hlen : i < (hydrateWithJoins model jis rows).length,
      ((∀ c ∈ ji.target.columns,
          ((rows.get ⟨i, hi⟩).lookup (ji.aliasName ++ "_" ++ c.1)).join = none) →
        (ji.relName, (none : Option Row)) ∈
          ((hydrateWithJoins model jis rows).get ⟨i, hlen⟩).rels) ∧
      ((∃ c ∈ ji.target.columns,
          (((rows.get ⟨i, hi⟩).lookup (ji.aliasName ++ "_" ++ c.1)).join).isSome = true) →
        (ji.relName, some (hydrateJoinData (rows.get ⟨i, hi⟩) ji).1) ∈
          ((hydrateWithJoins model jis rows).get ⟨i, hlen⟩).rels) := by
  have hlen : i < (hydrateWithJoins model jis rows).length := by
    simpa [hydrateWithJoins] using hi
  refine ⟨hlen, ?_, ?_⟩
  all_goals
    have hget : (hydrateWithJoins model jis rows).get ⟨i, hlen⟩ =
        { mainData := model.columns.filterMap (fun c =>
            match (rows.get ⟨i, hi⟩).lookup c.1 with
            | some v => some (c.1, v)
            | none => none),
          rels := jis.map (fun j =>
            let r := hydrateJoinData (rows.get ⟨i, hi⟩) j
            (j.relName, if r.2 then some r.1 else none)) } := by
      simp [hydrateWithJoins, List.get_map]
  · intro hnull
    rw [hget]
    have hdata : (hydrateJoinData (rows.get ⟨i, hi⟩) ji).2 = false := by
      rw [← Bool.not_eq_true]
      rw [show hydrateJoinData (rows.get ⟨i, hi⟩) ji =
        ji.target.columns.foldl (fun (acc : Row × Bool) c =>
          match (rows.get ⟨i, hi⟩).lookup (ji.aliasName ++ "_" ++ c.1) with
          | some v => (acc.1 ++ [(c.1, v)], acc.2 || v.isSome)
          | none => acc) ([], false) from rfl]
      rw [hydrateJoinData_hasData]
      rintro (h | ⟨c, hc, hsome⟩)
      · cases h
      · rw [hnull c hc] at hsome
        cases hsome
    have : (ji.relName, (none : Option Row)) =
        (fun j => let r := hydrateJoinData (rows.get ⟨i, hi⟩) j
          (j.relName, if r.2 then some r.1 else none)) ji := by
      simp only [List.get_eq_getElem] at hdata
      simp [hdata]
    rw [this]
    exact List.mem_map_of_mem _ hji
  · intro hsome
    rw [hget]
    have hdata : (hydrateJoinData (rows.get ⟨i, hi⟩) ji).2 = true := by
      rw [show hydrateJoinData (rows.get ⟨i, hi⟩) ji =
        ji.target.columns.foldl (fun (acc : Row × Bool) c =>
          match (rows.get ⟨i, hi⟩).lookup (ji.aliasName ++ "_" ++ c.1) with
          | some v => (acc.1 ++ [(c.1, v)], acc.2 || v.isSome)
          | none => acc) ([], false) from rfl]
      rw [hydrateJoinData_hasData]
      exact Or.inr hsome
    have : (ji.relName, some (hydrateJoinData (rows.get ⟨i, hi⟩) ji).1) =
        (fun j => let r := hydrateJoinData (rows.get ⟨i, hi⟩) j
          (j.relName, if r.2 then some r.1 else none)) ji := by
      simp only [List.get_eq_getElem] at hdata
      simp [hdata]
    rw [this]
    exact List.mem_map_of_mem _ hji

/-- The joined-load join metadata for `Post.author` used by the C9 witness. -/
def jiAuthor : JoinInfo :=
  { relName := "author", target := userModel, joinType := "LEFT",
    localCol := "author_id", remoteCol := "id", aliasName := "_j1" }

/-- A result row whose joined columns are all NULL (outer-join miss). -/
def nullJoinRow : Row :=
  [("id", some (.vint 3)), ("title", some (.vstr "P3")), ("author_id", none),
   ("_j1_id", none), ("_j1_name", none), ("_j1_email", none)]

/-- A result row whose joined columns carry the author `Alice`. -/
def aliceJoinRow : Row :=
  [("id", some (.vint 1)), ("title", some (.vstr "P1")), ("author_id", some (.vint 1)),
   ("_j1_id", some (.vint 1)), ("_j1_name", some (.vstr "Alice")),
   ("_j1_email", some (.vstr "a@x"))]

/-- C9 witness: on concrete rows, the all-NULL row hydrates the `author`
slot to `None` and the non-NULL row hydrates it to the aliased data. -/
theorem c9_joined_null_hydration_witness :
    (("author", (none : Option Row)) ∈
      ((hydrateWithJoins postModel [jiAuthor] [nullJoinRow, aliceJoinRow]).get
        ⟨0, by decide⟩).rels) ∧
    (("author", some [("id", some (PyVal.vint 1)), ("name", some (PyVal.vstr "Alice")),
        ("email", some (PyVal.vstr "a@x"))]) ∈
      ((hydrateWithJoins postModel [jiAuthor] [nullJoinRow, aliceJoinRow]).get
        ⟨1, by decide⟩).rels) := by
  constructor
  · obtain ⟨hlen, hnull, _⟩ := c9_joined_null_hydration postModel [jiAuthor]
      [nullJoinRow, aliceJoinRow] 0 (by decide) jiAuthor (by decide)
    exact hnull (by decide)
  · obtain ⟨hlen, _, hsome⟩ := c9_joined_null_hydration postModel [jiAuthor]
      [nullJoinRow, aliceJoinRow] 1 (by decide) jiAuthor (by decide)
    have := hsome (by decide)
    simpa using this

/-! ## C8 -/

/-- Concatenating the chunks gives back the original list. -/
theorem chunkList_flatten {α : Type} (n : Nat) (hn : n ≠ 0) :
    ∀ xs : List α, (chunkList n xs).flatten = xs := by
  have H : ∀ (L : Nat) (xs : List α), xs.length ≤ L → (chunkList n xs).flatten = xs := by
    intro L
    induction L with
    | zero =>
      intro xs hx
      have hnil : xs = [] := List.eq_nil_of_length_eq_zero (Nat.le_zero.mp hx)
      subst hnil
      rw [chunkList]
      simp
    | succ L ih =>
      intro xs hx
      rw [chunkList]
      by_cases hcond : xs.isEmpty = true ∨ n = 0
      · rcases hcond with he | he
        · simp [he, List.isEmpty_iff.mp he]
        · exact absurd he hn
      · rw [dif_neg hcond]
        push_neg at hcond
        have hx0 : xs ≠ [] := by simpa [List.isEmpty_iff] using hcond.1
        have hn0 : 0 < n := Nat.pos_of_ne_zero hcond.2
        have hdrop : (xs.drop n).length ≤ L := by
          have h1 : 0 < xs.length := List.length_pos.mpr hx0
          simp only [List.length_drop]
          omega
        simp only [List.flatten_cons]
        rw [ih (xs.drop n) hdrop]
        exact List.take_append_drop n xs
  exact fun xs => H xs.length xs le_rfl

/-- Every chunk holds at most `n` elements. -/
theorem chunkList_mem_length {α : Type} (n : Nat) :
    ∀ (xs : List α), ∀ b ∈ chunkList n xs, b.length ≤ n := by
  have H : ∀ (L : Nat) (xs : List α), xs.length ≤ L →
      ∀ b ∈ chunkList n xs, b.length ≤ n := by
    intro L
    induction L with
    | zero =>
      intro xs hx b hb
      have hnil : xs = [] := List.eq_nil_of_length_eq_zero (Nat.le_zero.mp hx)
      subst hnil
      rw [chunkList] at hb
      simp at hb
    | succ L ih =>
      intro xs hx b hb
      rw [chunkList] at hb
      by_cases hcond : xs.isEmpty = true ∨ n = 0
      · rw [dif_pos hcond] at hb
        cases hb
      · rw [dif_neg hcond] at hb
        push_neg at hcond
        have hx0 : xs ≠ [] := by simpa [List.isEmpty_iff] using hcond.1
        have hn0 : 0 < n := Nat.pos_of_ne_zero hcond.2
        rcases List.mem_cons.mp hb with hb | hb
        · subst hb
          simpa [List.length_take] using Nat.min_le_left n xs.length
        · have hdrop : (xs.drop n).length ≤ L := by
            have h1 : 0 < xs.length := List.length_pos.mpr hx0
            simp only [List.length_drop]
            omega
          exact ih (xs.drop n) hdrop b hb
  exact fun xs => H xs.length xs le_rfl

/-- An entity with 901 plain columns: more parameters per row than SQLite's
budget allows. -/
def wideModel : Model :=
  { name := "Wide", tablename := "wide",
    columns := (List.range 901).map (fun i => ("c" ++ toString i, false, false)),
    primaryKey := none, softDelete := false }

set_option maxRecDepth 40000 in
/-- C8 (counterexample): with 901 insertable columns on SQLite the computed
batch size is `900 / 901 = 0`, and `_batch_insert` fails (Python's `range`
with step 0 raises `ValueError`) instead of partitioning the single pending
instance into batches. -/
theorem c8_param_overflow_no_partition :
    ¬ ∃ bs : List (List (List (String × PyVal))),
        batchInsertBatches wideModel [[("c0", PyVal.vint 1)]] "sqlite" = some bs ∧
        bs.flatten = [[("c0", PyVal.vint 1)]] := by
  rintro ⟨bs, hb, -⟩
  rw [show batchInsertBatches wideModel [[("c0", PyVal.vint 1)]] "sqlite" =
    (none : Option (List (List (List (String × PyVal))))) from by rfl] at hb
  cases hb

/-- C8 (amended): provided the per-row column count fits the dialect's
parameter budget (at most 900 on SQLite, 30000 on PostgreSQL), the pending
instances of one entity are partitioned into consecutive batches of at most
`⌊budget / columns⌋` rows, every instance appears in exactly one batch (the
concatenation of the batches is the original pending list), and each batch
is issued as a single multi-VALUES INSERT statement; with more columns than
the budget the flush raises instead. -/
theorem c8_batch_partition (model : Model)
    (instances : List (List (String × PyVal))) (dialect : String)
    (hc : insertColumns model ≠ [])
    (hfit : (insertColumns model).length ≤ (if dialect = "sqlite" then 900 else 30000)) :
    ∃ bs : List (List (List (String × PyVal))),
      batchInsertBatches model instances dialect = some bs ∧
      bs.flatten = instances ∧
      (∀ b ∈ bs, b.length ≤
        (if dialect = "sqlite" then 900 else 30000) / (insertColumns model).length) ∧
      (∀ b ∈ bs, ∃ tail,
        (insertBatchSql model b (insertColumns model) dialect).1 =
          "INSERT INTO " ++ model.tablename ++ " (" ++
            String.intercalate ", " (insertColumns model) ++ ") VALUES " ++ tail) := by
  have hsingle : ∀ b : List (List (String × PyVal)), ∃ tail,
      (insertBatchSql model b (insertColumns model) dialect).1 =
        "INSERT INTO " ++ model.tablename ++ " (" ++
          String.intercalate ", " (insertColumns model) ++ ") VALUES " ++ tail := by
    intro b
    cases hpk : model.primaryKey with
    | none =>
      exact ⟨String.intercalate ", "
        (valuesGroups dialect (insertColumns model) b 0).1, by simp [insertBatchSql, hpk]⟩
    | some pk =>
      refine ⟨String.intercalate ", "
        (valuesGroups dialect (insertColumns model) b 0).1 ++ " RETURNING " ++ pk, ?_⟩
      simp [insertBatchSql, hpk, String.append_assoc]
  by_cases hinst : instances.isEmpty
  · refine ⟨[], by simp [batchInsertBatches, hinst], ?_, by simp, by simp⟩
    simp [List.isEmpty_iff.mp hinst]
  · have hlen : 0 < (insertColumns model).length :=
      List.length_pos.mpr hc
    have hdiv : 0 < (if dialect = "sqlite" then 900 else 30000) / (insertColumns model).length :=
      Nat.div_pos hfit hlen
    refine ⟨chunkList ((if dialect = "sqlite" then 900 else 30000) /
        (insertColumns model).length) instances, ?_, ?_, ?_, fun b _ => hsingle b⟩
    · simp only [batchInsertBatches, hinst, Bool.false_eq_true, if_false]
      rw [if_neg (by simpa [List.isEmpty_iff] using hc)]
      rw [if_neg (Nat.pos_iff_ne_zero.mp hdiv)]
    · exact chunkList_flatten _ (Nat.pos_iff_ne_zero.mp hdiv) instances
    · exact chunkList_mem_length _ instances

/-- C8 witness: the amended statement evaluated on a 2-column entity with
three pending rows on SQLite (batch size 450, one batch). -/
theorem c8_batch_partition_witness :
    ∃ bs : List (List (List (String × PyVal))),
      batchInsertBatches userModel
        [[("name", PyVal.vstr "A")], [("name", PyVal.vstr "B")], [("name", PyVal.vstr "C")]]
        "sqlite" = some bs ∧
      bs.flatten =
        [[("name", PyVal.vstr "A")], [("name", PyVal.vstr "B")], [("name", PyVal.vstr "C")]] ∧
      (∀ b ∈ bs, b.length ≤
        (if "sqlite" = "sqlite" then 900 else 30000) / (insertColumns userModel).length) ∧
      (∀ b ∈ bs, ∃ tail,
        (insertBatchSql userModel b (insertColumns userModel) "sqlite").1 =
          "INSERT INTO " ++ userModel.tablename ++ " (" ++
            String.intercalate ", " (insertColumns userModel) ++ ") VALUES " ++ tail) :=
  c8_batch_partition userModel
    [[("name", PyVal.vstr "A")], [("name", PyVal.vstr "B")], [("name", PyVal.vstr "C")]]
    "sqlite" (by decide) (by decide)

/-! ## C4 -/

/-- A session with an empty identity map and no SQL issued. -/
def freshSession : SessionState := { identityMap := [], nextRef := 0, sqlCount := 0 }

/-- A database with no rows. -/
def emptyDb : String → Int → Option (Option Int) := fun _ _ => none

/-- C4 (counterexample): when the row is absent, `get` caches nothing: two
calls to `session.get(User, 7)` both return `None` and each issues one
SELECT — across the two calls SQL is issued twice, not at most once. -/
theorem c4_get_miss_not_cached :
    sessionGet userModel 7 false emptyDb freshSession =
      some (none, { identityMap := [], nextRef := 0, sqlCount := 1 }) ∧
    sessionGet userModel 7 false emptyDb
        { identityMap := [], nextRef := 0, sqlCount := 1 } =
      some (none, { identityMap := [], nextRef := 0, sqlCount := 2 }) ∧
    ¬ ((2 : Nat) - freshSession.sqlCount ≤ 1) := by
  refine ⟨rfl, rfl, by decide⟩

/-- C4 (amended): `get` is idempotent once a call has produced an instance:
if a call returns instance `r`, an immediately repeated call returns the
same reference `r` with no further SQL, and at most one statement was
issued in total; but a call that finds no row does not cache the miss, so
repeated misses re-issue SQL (see the counterexample). -/
theorem c4_get_idempotent_when_found (model : Model) (id : Int)
    (db : String → Int → Option (Option Int)) (st st1 : SessionState) (r : InstRef)
    (h : sessionGet model id false db st = some (some r, st1)) :
    sessionGet model id false db st1 = some (some r, st1) ∧
    st1.sqlCount ≤ st.sqlCount + 1 := by
  cases hmap : List.lookup (model.name, id) st.identityMap with
  | some inst =>
    by_cases hcond : model.softDelete = true ∧ inst.deletedAt ≠ none
    · simp [sessionGet, hmap, hcond] at h
    · simp [sessionGet, hmap, hcond] at h
      obtain ⟨h1, h2⟩ := h
      subst h2
      subst h1
      refine ⟨?_, Nat.le_succ _⟩
      simp [sessionGet, hmap, hcond]
  | none =>
    cases hpk : model.primaryKey with
    | none => simp [sessionGet, hmap, hpk] at h
    | some pk =>
      cases hdb : db model.name id with
      | none => simp [sessionGet, hmap, hpk, hdb] at h
      | some d =>
        by_cases hfilter : model.softDelete = true ∧ d ≠ none
        · simp [sessionGet, hmap, hpk, hdb, hfilter] at h
        · simp [sessionGet, hmap, hpk, hdb, hfilter] at h
          obtain ⟨h1, h2⟩ := h
          subst h1
          subst h2
          refine ⟨?_, by simp⟩
          have hd : ¬ (model.softDelete = true ∧
              ({ refId := st.nextRef, deletedAt := d } : InstRef).deletedAt ≠ none) := by
            simpa using hfilter
          simp [sessionGet, List.lookup, hd]

/-- A database holding the single `User` row with id 1 (not soft-deleted). -/
def presentDb : String → Int → Option (Option Int) :=
  fun _ i => if i = 1 then some none else none

/-- C4 witness: the amended statement on a present row — the second `get`
returns the cached instance and only one statement was issued in total. -/
theorem c4_get_idempotent_when_found_witness :
    sessionGet userModel 1 false presentDb
        { identityMap := [(("User", 1), ⟨0, none⟩)], nextRef := 1, sqlCount := 1 } =
      some (some ⟨0, none⟩,
        { identityMap := [(("User", 1), ⟨0, none⟩)], nextRef := 1, sqlCount := 1 }) ∧
    ({ identityMap := [(("User", 1), ⟨0, none⟩)], nextRef := 1,
        sqlCount := 1 } : SessionState).sqlCount ≤ freshSession.sqlCount + 1 :=
  c4_get_idempotent_when_found userModel 1 presentDb freshSession
    { identityMap := [(("User", 1), ⟨0, none⟩)], nextRef := 1, sqlCount := 1 }
    ⟨0, none⟩ (by rfl)

/-! ## C1 -/

/-- `True` exactly on successful operation closures. -/
def exceptOk : Except String (List String) → Bool
  | .ok _ => true
  | .error _ => false

/-- An initial migration creating a table. -/
def scriptA : Script :=
  { revision := "aaa", downRevision := none,
    upgradeStmts := Except.ok ["CREATE TABLE t (id INTEGER)"],
    downgradeStmts := Except.ok ["DROP TABLE t"] }

/-- A second migration on top of `scriptA`. -/
def scriptB : Script :=
  { revision := "bbb", downRevision := some "aaa",
    upgradeStmts := Except.ok ["ALTER TABLE t ADD COLUMN age INTEGER"],
    downgradeStmts := Except.ok ["ALTER TABLE t DROP COLUMN age"] }

/-- A database with an empty version table. -/
def emptyDbState : DbState := { versionTable := [], executed := [] }

/-- The version table reached after upgrading `scriptA` and `scriptB`. -/
def appliedDbState : DbState :=
  { versionTable := ["aaa", "bbb"],
    executed := ["CREATE TABLE t (id INTEGER)", "ALTER TABLE t ADD COLUMN age INTEGER"] }

/-- `_apply_migration` on an upgrade whose closure succeeds: execute and
append the revision row. -/
theorem applyMigration_upgrade_ok (script : Script) (stmts : List String)
    (st : DbState) (h : script.upgradeStmts = .ok stmts) :
    applyMigration script "upgrade" st =
      ({ versionTable := st.versionTable ++ [script.revision],
         executed := st.executed ++ stmts.filter (fun s => s ≠ "") }, none) := by
  simp [applyMigration, h]

/-- `_apply_migration` on an upgrade whose closure raises: the exception
propagates and the database state is untouched. -/
theorem applyMigration_upgrade_error (script : Script) (e : String)
    (st : DbState) (h : script.upgradeStmts = .error e) :
    applyMigration script "upgrade" st = (st, some e) := by
  simp [applyMigration, h]

/-- `_apply_migration` on a downgrade whose closure succeeds: execute and
delete the revision row. -/
theorem applyMigration_downgrade_ok (script : Script) (ss : List String)
    (st : DbState) (h : script.downgradeStmts = .ok ss) :
    applyMigration script "downgrade" st =
      ({ versionTable := st.versionTable.filter (fun r => r ≠ script.revision),
         executed := st.executed ++ ss.filter (fun s => s ≠ "") }, none) := by
  simp [applyMigration, h]

/-- The upgrade loop appends exactly the newly applied scripts' revisions to
the version table — one row per applied migration, none removed. -/
theorem upgradeLoop_spec (target : String) :
    ∀ (pending applied : List Script) (st : DbState),
      ∃ tail, (upgradeLoop target pending applied st).1 = applied ++ tail ∧
        (upgradeLoop target pending applied st).2.1.versionTable =
          st.versionTable ++ tail.map Script.revision := by
  intro pending
  induction pending with
  | nil =>
    intro applied st
    exact ⟨[], by simp [upgradeLoop], by simp [upgradeLoop]⟩
  | cons script rest ih =>
    intro applied st
    simp only [upgradeLoop]
    split
    · exact ⟨[], by simp, by simp⟩
    · cases hops : script.upgradeStmts with
      | error e =>
        rw [applyMigration_upgrade_error script e st hops]
        exact ⟨[], by simp, by simp⟩
      | ok stmts =>
        rw [applyMigration_upgrade_ok script stmts st hops]
        show ∃ tail,
          (if target ≠ "head" ∧ pyStartsWith script.revision target then
              (applied ++ [script],
                ({ versionTable := st.versionTable ++ [script.revision],
                   executed := st.executed ++ stmts.filter (fun s => s ≠ "") } : DbState),
                none)
            else upgradeLoop target rest (applied ++ [script])
              { versionTable := st.versionTable ++ [script.revision],
                executed := st.executed ++ stmts.filter (fun s => s ≠ "") }).1 =
            applied ++ tail ∧ _
        split
        · exact ⟨[script], rfl, by simp⟩
        · obtain ⟨tail, h1, h2⟩ := ih (applied ++ [script])
            { versionTable := st.versionTable ++ [script.revision],
              executed := st.executed ++ stmts.filter (fun s => s ≠ "") }
          refine ⟨script :: tail, ?_, ?_⟩
          · rw [h1]
            simp
          · rw [h2]
            simp

/-- A successful `lookup` into an association list built by pairing each
script with its revision returns a script carrying the looked-up revision. -/
theorem lookup_rev_spec (scripts : List Script) :
    ∀ (r : String) (m : Script),
      lookupLast (scripts.map (fun s => (s.revision, s))) r = some m →
      m ∈ scripts ∧ m.revision = r := by
  have haux : ∀ (l : List (String × Script)),
      (∀ p ∈ l, p.2 ∈ scripts ∧ p.2.revision = p.1) →
      ∀ (k : String) (m : Script), l.lookup k = some m →
        m ∈ scripts ∧ m.revision = k := by
    intro l hl
    induction l with
    | nil => intro k m hm; cases hm
    | cons p rest ih =>
      intro k m hm
      by_cases hk : (k == p.1) = true
      · have hkk : k = p.1 := by simpa using hk
        have : some p.2 = some m := by simpa [List.lookup, hk] using hm
        obtain rfl : p.2 = m := Option.some.inj this
        obtain ⟨h1, h2⟩ := hl p (List.mem_cons_self _ _)
        exact ⟨h1, by rw [h2, hkk]⟩
      · have : List.lookup k rest = some m := by simpa [List.lookup, hk] using hm
        exact ih (fun q hq => hl q (List.mem_cons_of_mem _ hq)) k m this
  intro r m hm
  refine haux _ ?_ r m hm
  intro p hp
  rw [List.mem_reverse] at hp
  obtain ⟨s, hs, hps⟩ := List.mem_map.mp hp
  rw [← hps]
  exact ⟨hs, rfl⟩

/-- Rolling back scripts whose revisions cover the whole version table
leaves the table empty. -/
theorem downgradeLoop_empties :
    ∀ (todo : List Script) (st : DbState),
      (∀ s ∈ todo, exceptOk s.downgradeStmts = true) →
      (∀ r ∈ st.versionTable, r ∈ todo.map Script.revision) →
      (downgradeLoop todo st).2.1.versionTable = [] := by
  intro todo
  induction todo with
  | nil =>
    intro st _ hall
    simp only [downgradeLoop]
    exact List.eq_nil_iff_forall_not_mem.mpr (fun r hr => by simpa using hall r hr)
  | cons s rest ih =>
    intro st hok hall
    have hs := hok s (List.mem_cons_self _ _)
    cases hss : s.downgradeStmts with
    | error e => rw [hss] at hs; cases hs
    | ok ss =>
      have hstep : downgradeLoop (s :: rest) st =
          (s :: (downgradeLoop rest
            { versionTable := st.versionTable.filter (fun r => r ≠ s.revision),
              executed := st.executed ++ ss.filter (fun x => x ≠ "") }).1,
           (downgradeLoop rest
            { versionTable := st.versionTable.filter (fun r => r ≠ s.revision),
              executed := st.executed ++ ss.filter (fun x => x ≠ "") }).2) := by
        simp [downgradeLoop, applyMigration, hss]
      rw [hstep]
      refine ih _ (fun t ht => hok t (List.mem_cons_of_mem _ ht)) ?_
      intro r hr
      rw [List.mem_filter] at hr
      have h1 := hall r hr.1
      have h2 : r ≠ s.revision := by simpa using hr.2
      simp only [List.map_cons, List.mem_cons] at h1
      rcases h1 with h1 | h1
      · exact absurd h1 h2
      · exact h1

/-- C1 (counterexample): two migrations applied from an empty database by
one `upgrade("head")` run leave BOTH revisions in the version table — after
the run ending at revision `bbb` the table is `["aaa", "bbb"]`, not exactly
`{bbb}`: upgrade inserts the new row without deleting the previous one. -/
theorem c1_upgrade_accumulates_rows :
    (runnerUpgrade [scriptA, scriptB] "head" emptyDbState).2.2 = none ∧
    (runnerUpgrade [scriptA, scriptB] "head" emptyDbState).2.1.versionTable =
      ["aaa", "bbb"] ∧
    "aaa" ∈ (runnerUpgrade [scriptA, scriptB] "head" emptyDbState).2.1.versionTable ∧
    ("aaa" : String) ≠ "bbb" := by
  refine ⟨rfl, rfl, ?_, by decide⟩
  rw [show (runnerUpgrade [scriptA, scriptB] "head" emptyDbState).2.1.versionTable =
    ["aaa", "bbb"] from rfl]
  decide

/-- C1 (amended): after any `upgrade` run the version table holds the
previously applied revisions plus one row per migration applied in the run
(the table accumulates all applied revisions rather than keeping only the
target); and after downgrading every applied migration — every version-table
row having a loadable script and a successful downgrade, the rollback count
covering the whole table — the version table is empty. -/
theorem c1_version_table_contents :
    (∀ (scripts : List Script) (target : String) (st : DbState),
       (runnerUpgrade scripts target st).2.1.versionTable =
         st.versionTable ++ ((runnerUpgrade scripts target st).1).map Script.revision) ∧
    (∀ (scripts : List Script) (target : String) (st : DbState),
       (∀ r ∈ st.versionTable,
          (lookupLast ((loadMigrations scripts).map (fun m => (m.revision, m))) r).isSome
            = true) →
       (∀ m ∈ loadMigrations scripts, exceptOk m.downgradeStmts = true) →
       st.versionTable.length ≤ downgradeCount target st.versionTable →
       (runnerDowngrade scripts target st).2.1.versionTable = []) := by
  constructor
  · intro scripts target st
    simp only [runnerUpgrade]
    split
    · simp
    · obtain ⟨tail, h1, h2⟩ := upgradeLoop_spec target
        ((loadMigrations scripts).filter (fun m => m.revision ∉ st.versionTable)) [] st
      rw [h2, h1]
      simp
  · intro scripts target st hsome hok hcount
    unfold runnerDowngrade
    by_cases happ : st.versionTable.isEmpty
    · simp [happ, List.isEmpty_iff.mp happ]
    · simp only [happ, Bool.false_eq_true, if_false]
      apply downgradeLoop_empties _ _ ?_ ?_
      · -- every script to roll back has a successful downgrade
        intro s hs
        have hs' : s ∈ (st.versionTable.filterMap (fun r =>
            lookupLast ((loadMigrations scripts).map (fun m => (m.revision, m))) r)) := by
          have h1 := List.mem_of_mem_take hs
          rwa [List.mem_reverse] at h1
        obtain ⟨r, hr, hlook⟩ := List.mem_filterMap.mp hs'
        exact hok s (lookup_rev_spec (loadMigrations scripts) r s hlook).1
      · -- the rolled-back scripts' revisions cover the version table
        intro r hr
        have hmapGen : ∀ l : List String,
            (∀ x ∈ l, (lookupLast ((loadMigrations scripts).map
              (fun m => (m.revision, m))) x).isSome = true) →
            (l.filterMap (fun x =>
              lookupLast ((loadMigrations scripts).map (fun m => (m.revision, m))) x)).map
                Script.revision = l := by
          intro l
          induction l with
          | nil => intro _; rfl
          | cons x rest ihx =>
            intro hl
            have hx := hl x (List.mem_cons_self _ _)
            obtain ⟨m, hm⟩ := Option.isSome_iff_exists.mp hx
            simp only [List.filterMap_cons, hm, List.map_cons]
            rw [ihx (fun y hy => hl y (List.mem_cons_of_mem _ hy))]
            rw [(lookup_rev_spec (loadMigrations scripts) x m hm).2]
        have hmap := hmapGen st.versionTable hsome
        have htake : ((st.versionTable.filterMap (fun x =>
            lookupLast ((loadMigrations scripts).map (fun m => (m.revision, m))) x)).reverse).take
              (downgradeCount target st.versionTable) =
            (st.versionTable.filterMap (fun x =>
              lookupLast ((loadMigrations scripts).map (fun m => (m.revision, m))) x)).reverse := by
          rw [List.take_eq_self_iff]
          rw [List.length_reverse]
          have hlenf : (st.versionTable.filterMap (fun x =>
              lookupLast ((loadMigrations scripts).map (fun m => (m.revision, m))) x)).length =
              st.versionTable.length := by
            have := congrArg List.length hmap
            simpa using this
          rw [hlenf]
          exact hcount
        rw [htake, List.map_reverse, hmap, List.mem_reverse]
        exact hr

/-- C1 witness: the amended statement on the two-script chain — the upgrade
run inserts both rows, and `downgrade("-2")` empties the table. -/
theorem c1_version_table_contents_witness :
    (runnerUpgrade [scriptA, scriptB] "head" emptyDbState).2.1.versionTable =
      emptyDbState.versionTable ++
        ((runnerUpgrade [scriptA, scriptB] "head" emptyDbState).1).map Script.revision ∧
    (runnerDowngrade [scriptA, scriptB] "-2" appliedDbState).2.1.versionTable = [] :=
  ⟨c1_version_table_contents.1 [scriptA, scriptB] "head" emptyDbState,
   c1_version_table_contents.2 [scriptA, scriptB] "-2" appliedDbState
     (by decide) (by decide) (by decide)⟩

/-! ## C5 -/

/-- One upgrade-loop step with target `"head"` on a script whose closure
raises: the loop stops with the exception and an untouched state. -/
theorem upgradeLoop_head_cons_error (script : Script) (e : String)
    (rest applied : List Script) (st : DbState)
    (h : script.upgradeStmts = .error e) :
    upgradeLoop "head" (script :: rest) applied st = (applied, st, some e) := by
  simp [upgradeLoop, applyMigration_upgrade_error script e st h]

/-- One upgrade-loop step with target `"head"` on a succeeding script:
record it as applied and continue. -/
theorem upgradeLoop_head_cons_ok (script : Script) (stmts : List String)
    (rest applied : List Script) (st : DbState)
    (h : script.upgradeStmts = .ok stmts) :
    upgradeLoop "head" (script :: rest) applied st =
      upgradeLoop "head" rest (applied ++ [script])
        { versionTable := st.versionTable ++ [script.revision],
          executed := st.executed ++ stmts.filter (fun s => s ≠ "") } := by
  simp [upgradeLoop, applyMigration_upgrade_ok script stmts st h]

/-- With target `"head"`, the scripts after a failing one are never touched:
the run over `pre ++ script :: rest` equals the run over `pre ++ [script]`. -/
theorem upgradeLoop_head_fail_eq (script : Script) (e : String)
    (hfail : script.upgradeStmts = .error e) :
    ∀ (pre rest applied : List Script) (st : DbState),
      (∀ s ∈ pre, exceptOk s.upgradeStmts = true) →
      upgradeLoop "head" (pre ++ script :: rest) applied st =
        upgradeLoop "head" (pre ++ [script]) applied st := by
  intro pre
  induction pre with
  | nil =>
    intro rest applied st _
    simp only [List.nil_append]
    rw [upgradeLoop_head_cons_error script e rest applied st hfail,
        upgradeLoop_head_cons_error script e [] applied st hfail]
  | cons s pre' ih =>
    intro rest applied st hok
    have hs := hok s (List.mem_cons_self _ _)
    cases hss : s.upgradeStmts with
    | error e2 =>
      rw [hss] at hs
      simp [exceptOk] at hs
    | ok stmts =>
      simp only [List.cons_append]
      rw [upgradeLoop_head_cons_ok s stmts _ applied st hss,
          upgradeLoop_head_cons_ok s stmts _ applied st hss]
      exact ih rest _ _ (fun t ht => hok t (List.mem_cons_of_mem _ ht))

/-- The result of running `pre ++ [script]` with `"head"` when `pre`
succeeds and `script` raises: `pre` is applied, the exception surfaces, and
exactly `pre`'s revisions were added to the version table. -/
theorem upgradeLoop_head_fail_result (script : Script) (e : String)
    (hfail : script.upgradeStmts = .error e) :
    ∀ (pre applied : List Script) (st : DbState),
      (∀ s ∈ pre, exceptOk s.upgradeStmts = true) →
      (upgradeLoop "head" (pre ++ [script]) applied st).1 = applied ++ pre ∧
      (upgradeLoop "head" (pre ++ [script]) applied st).2.2 = some e ∧
      (upgradeLoop "head" (pre ++ [script]) applied st).2.1.versionTable =
        st.versionTable ++ pre.map Script.revision := by
  intro pre
  induction pre with
  | nil =>
    intro applied st _
    rw [List.nil_append, upgradeLoop_head_cons_error script e [] applied st hfail]
    exact ⟨by simp, rfl, by simp⟩
  | cons s pre' ih =>
    intro applied st hok
    have hs := hok s (List.mem_cons_self _ _)
    cases hss : s.upgradeStmts with
    | error e2 =>
      rw [hss] at hs
      simp [exceptOk] at hs
    | ok stmts =>
      simp only [List.cons_append]
      rw [upgradeLoop_head_cons_ok s stmts _ applied st hss]
      obtain ⟨h1, h2, h3⟩ := ih (applied ++ [s])
        { versionTable := st.versionTable ++ [s.revision],
          executed := st.executed ++ stmts.filter (fun x => x ≠ "") }
        (fun t ht => hok t (List.mem_cons_of_mem _ ht))
      refine ⟨?_, h2, ?_⟩
      · rw [h1]
        simp
      · rw [h3]
        simp

/-- C5: when the plan computed by `upgrade("head")` is `pre ++ [script] ++
rest`, every script of `pre` succeeds and `script`'s upgrade closure
raises, the run surfaces the exception, applies exactly `pre`, never adds a
version row for the failing script's revision, and the scripts after it are
not executed (the run equals the run of the truncated plan `pre ++
[script]`). -/
theorem c5_failed_upgrade_aborts (scripts : List Script) (st : DbState)
    (pre rest : List Script) (script : Script) (e : String)
    (hplan : (loadMigrations scripts).filter (fun m => m.revision ∉ st.versionTable) =
      pre ++ script :: rest)
    (hpre : ∀ s ∈ pre, exceptOk s.upgradeStmts = true)
    (hfail : script.upgradeStmts = Except.error e)
    (hnew : script.revision ∉ st.versionTable)
    (hnewpre : script.revision ∉ pre.map Script.revision) :
    (runnerUpgrade scripts "head" st).2.2 = some e ∧
    (runnerUpgrade scripts "head" st).1 = pre ∧
    script.revision ∉ (runnerUpgrade scripts "head" st).2.1.versionTable ∧
    runnerUpgrade scripts "head" st = upgradeLoop "head" (pre ++ [script]) [] st := by
  have hrw : runnerUpgrade scripts "head" st =
      upgradeLoop "head" (pre ++ script :: rest) [] st := by
    simp only [runnerUpgrade, hplan]
    rw [if_neg (by simp)]
  rw [hrw, upgradeLoop_head_fail_eq script e hfail pre rest [] st hpre]
  obtain ⟨h1, h2, h3⟩ := upgradeLoop_head_fail_result script e hfail pre [] st hpre
  refine ⟨h2, by rw [h1]; simp, ?_, rfl⟩
  rw [h3]
  intro hmem
  rcases List.mem_append.mp hmem with hm | hm
  · exact hnew hm
  · exact hnewpre hm

/-- A migration whose upgrade closure raises. -/
def scriptBad : Script :=
  { revision := "bad", downRevision := some "aaa",
    upgradeStmts := Except.error "boom", downgradeStmts := Except.ok [] }

/-- A migration after the failing one. -/
def scriptC : Script :=
  { revision := "ccc", downRevision := some "bad",
    upgradeStmts := Except.ok ["CREATE TABLE c (id INTEGER)"],
    downgradeStmts := Except.ok [] }

/-- C5 witness: on the plan `[scriptA, scriptBad, scriptC]` from an empty
database, the exception surfaces after `scriptA`, no `bad` row exists, and
`scriptC` is never executed. -/
theorem c5_failed_upgrade_aborts_witness :
    (runnerUpgrade [scriptA, scriptBad, scriptC] "head" emptyDbState).2.2 = some "boom" ∧
    (runnerUpgrade [scriptA, scriptBad, scriptC] "head" emptyDbState).1 = [scriptA] ∧
    "bad" ∉ (runnerUpgrade [scriptA, scriptBad, scriptC] "head" emptyDbState).2.1.versionTable ∧
    runnerUpgrade [scriptA, scriptBad, scriptC] "head" emptyDbState =
      upgradeLoop "head" ([scriptA] ++ [scriptBad]) [] emptyDbState :=
  c5_failed_upgrade_aborts [scriptA, scriptBad, scriptC] emptyDbState
    [scriptA] [scriptC] scriptBad "boom"
    (by rfl) (by decide) (by rfl) (by decide) (by decide)

/-! ## C6 -/

/-- A successful association-list lookup returns a pair of the list. -/
theorem lookup_mem : ∀ (l : List (String × Script)) (k : String) (v : Script),
    l.lookup k = some v → (k, v) ∈ l := by
  intro l
  induction l with
  | nil => intro k v h; cases h
  | cons p rest ih =>
    intro k v h
    by_cases hk : (k == p.1) = true
    · have hsome : some p.2 = some v := by simpa [List.lookup, hk] using h
      have hkk : k = p.1 := by simpa using hk
      rw [hkk, ← Option.some.inj hsome]
      exact List.mem_cons_self _ _
    · have hrest : List.lookup k rest = some v := by simpa [List.lookup, hk] using h
      exact List.mem_cons_of_mem _ (ih k v hrest)

/-- A successful `lookupLast` returns a pair of the list. -/
theorem lookupLast_mem (l : List (String × Script)) (k : String) (v : Script)
    (h : lookupLast l k = some v) : (k, v) ∈ l := by
  have := lookup_mem l.reverse k v h
  rwa [List.mem_reverse] at this

/-- Anatomy of one `visit` call: it prepends some newly visited revisions,
appends some newly sorted scripts, every new revision is carried by a newly
sorted script, and every newly sorted script is the visited one or a value
of the revision map. Holds for every fuel value. -/
theorem visitFuel_spec (byRev : List (String × Script)) :
    ∀ (fuel : Nat) (script : Script) (visited : List String) (sorted : List Script),
      ∃ nv ns,
        visitFuel byRev fuel script (visited, sorted) = (nv ++ visited, sorted ++ ns) ∧
        (∀ x ∈ nv, ∃ t ∈ ns, t.revision = x) ∧
        (∀ t ∈ ns, t = script ∨ ∃ k, (k, t) ∈ byRev) := by
  intro fuel
  induction fuel with
  | zero =>
    intro script visited sorted
    exact ⟨[], [], by simp [visitFuel], by simp, by simp⟩
  | succ fuel ih =>
    intro script visited sorted
    simp only [visitFuel]
    by_cases hv : script.revision ∈ visited
    · rw [if_pos hv]
      exact ⟨[], [], by simp, by simp, by simp⟩
    · rw [if_neg hv]
      split
      · rename_i d heq
        by_cases hde : d = ""
        · rw [if_pos hde]
          refine ⟨[script.revision], [script], by simp, ?_, ?_⟩
          · intro x hx
            simp only [List.mem_singleton] at hx
            exact ⟨script, by simp, by rw [hx]⟩
          · intro t ht
            simp only [List.mem_singleton] at ht
            exact Or.inl ht
        · rw [if_neg hde]
          split
          · rename_i parent hlook
            obtain ⟨nv', ns', heq2, hns, hmem⟩ := ih parent (script.revision :: visited) sorted
            refine ⟨nv' ++ [script.revision], ns' ++ [script], ?_, ?_, ?_⟩
            · rw [heq2]
              simp [List.append_assoc]
            · intro x hx
              rcases List.mem_append.mp hx with hx | hx
              · obtain ⟨t, ht, hrt⟩ := hns x hx
                exact ⟨t, List.mem_append_left _ ht, hrt⟩
              · simp only [List.mem_singleton] at hx
                exact ⟨script, List.mem_append_right _ (by simp), by rw [hx]⟩
            · intro t ht
              rcases List.mem_append.mp ht with ht | ht
              · rcases hmem t ht with h | h
                · rw [h]
                  exact Or.inr ⟨d, lookupLast_mem byRev d parent hlook⟩
                · exact Or.inr h
              · simp only [List.mem_singleton] at ht
                exact Or.inl ht
          · rename_i hlook
            refine ⟨[script.revision], [script], by simp, ?_, ?_⟩
            · intro x hx
              simp only [List.mem_singleton] at hx
              exact ⟨script, by simp, by rw [hx]⟩
            · intro t ht
              simp only [List.mem_singleton] at ht
              exact Or.inl ht
      · rename_i heq
        refine ⟨[script.revision], [script], by simp, ?_, ?_⟩
        · intro x hx
          simp only [List.mem_singleton] at hx
          exact ⟨script, by simp, by rw [hx]⟩
        · intro t ht
          simp only [List.mem_singleton] at ht
          exact Or.inl ht

/-- With any positive fuel, `visit` marks its argument's revision visited. -/
theorem visitFuel_visits (byRev : List (String × Script)) (fuel : Nat)
    (script : Script) (visited : List String) (sorted : List Script) :
    script.revision ∈ (visitFuel byRev (fuel + 1) script (visited, sorted)).1 := by
  simp only [visitFuel]
  by_cases hv : script.revision ∈ visited
  · rw [if_pos hv]
    exact hv
  · rw [if_neg hv]
    split
    · rename_i d heq
      by_cases hde : d = ""
      · rw [if_pos hde]
        simp
      · rw [if_neg hde]
        split
        · rename_i parent hlook
          obtain ⟨nv', ns', heq2, -, -⟩ := visitFuel_spec byRev fuel parent
            (script.revision :: visited) sorted
          rw [heq2]
          simp
        · rename_i hlook
          simp
    · rename_i heq
      simp

/-- Invariants of the sort's outer fold: visited revisions always have a
matching sorted script, sorted scripts come from the input or the revision
map, every processed script's revision ends up visited, and the visited set
only grows. -/
theorem sortFold_spec (byRev : List (String × Script)) (F : Nat)
    (scripts0 : List Script) :
    ∀ (l : List Script) (acc : List String × List Script),
      (∀ s ∈ l, s ∈ scripts0) →
      (∀ x ∈ acc.1, ∃ t ∈ acc.2, t.revision = x) →
      (∀ t ∈ acc.2, t ∈ scripts0 ∨ ∃ k, (k, t) ∈ byRev) →
      (∀ x ∈ (l.foldl (fun a s => visitFuel byRev (F + 1) s a) acc).1,
         ∃ t ∈ (l.foldl (fun a s => visitFuel byRev (F + 1) s a) acc).2,
           t.revision = x) ∧
      (∀ t ∈ (l.foldl (fun a s => visitFuel byRev (F + 1) s a) acc).2,
         t ∈ scripts0 ∨ ∃ k, (k, t) ∈ byRev) ∧
      (∀ s ∈ l, s.revision ∈ (l.foldl (fun a s => visitFuel byRev (F + 1) s a) acc).1) ∧
      (∀ x ∈ acc.1, x ∈ (l.foldl (fun a s => visitFuel byRev (F + 1) s a) acc).1) := by
  intro l
  induction l with
  | nil =>
    intro acc _ h1 h2
    exact ⟨h1, h2, by simp, fun x hx => hx⟩
  | cons s rest ih =>
    intro acc hsub h1 h2
    simp only [List.foldl_cons]
    obtain ⟨nv, ns, heq, hns, hmem⟩ := visitFuel_spec byRev (F + 1) s acc.1 acc.2
    have hacc : visitFuel byRev (F + 1) s acc = (nv ++ acc.1, acc.2 ++ ns) := heq
    have h1' : ∀ x ∈ (visitFuel byRev (F + 1) s acc).1,
        ∃ t ∈ (visitFuel byRev (F + 1) s acc).2, t.revision = x := by
      rw [hacc]
      intro x hx
      rcases List.mem_append.mp hx with hx | hx
      · obtain ⟨t, ht, hrt⟩ := hns x hx
        exact ⟨t, List.mem_append_right _ ht, hrt⟩
      · obtain ⟨t, ht, hrt⟩ := h1 x hx
        exact ⟨t, List.mem_append_left _ ht, hrt⟩
    have h2' : ∀ t ∈ (visitFuel byRev (F + 1) s acc).2,
        t ∈ scripts0 ∨ ∃ k, (k, t) ∈ byRev := by
      rw [hacc]
      intro t ht
      rcases List.mem_append.mp ht with ht | ht
      · exact h2 t ht
      · rcases hmem t ht with h | h
        · rw [h]
          exact Or.inl (hsub s (List.mem_cons_self _ _))
        · exact Or.inr h
    obtain ⟨g1, g2, g3, g4⟩ := ih (visitFuel byRev (F + 1) s acc)
      (fun t ht => hsub t (List.mem_cons_of_mem _ ht)) h1' h2'
    refine ⟨g1, g2, ?_, ?_⟩
    · intro t ht
      rcases List.mem_cons.mp ht with h | h
      · rw [h]
        exact g4 _ (visitFuel_visits byRev F s acc.1 acc.2)
      · exact g3 t h
    · intro x hx
      apply g4
      rw [hacc]
      exact List.mem_append_right _ hx

/-- Freshness anatomy of one `visit` call: every newly sorted script's
revision is newly visited, newly visited revisions were not visited before,
and the newly sorted scripts carry pairwise-distinct revisions — the
visited set makes `visit` append each revision at most once. -/
theorem visitFuel_fresh (byRev : List (String × Script)) :
    ∀ (fuel : Nat) (script : Script) (visited : List String) (sorted : List Script),
      ∃ nv ns,
        visitFuel byRev fuel script (visited, sorted) = (nv ++ visited, sorted ++ ns) ∧
        (∀ t ∈ ns, t.revision ∈ nv) ∧
        (∀ x ∈ nv, x ∉ visited) ∧
        (ns.map Script.revision).Nodup := by
  intro fuel
  induction fuel with
  | zero =>
    intro script visited sorted
    exact ⟨[], [], by simp [visitFuel], by simp, by simp, by simp⟩
  | succ fuel ih =>
    intro script visited sorted
    simp only [visitFuel]
    by_cases hv : script.revision ∈ visited
    · rw [if_pos hv]
      exact ⟨[], [], by simp, by simp, by simp, by simp⟩
    · rw [if_neg hv]
      split
      · rename_i d heq
        by_cases hde : d = ""
        · rw [if_pos hde]
          refine ⟨[script.revision], [script], by simp, by simp, ?_, by simp⟩
          intro x hx
          simp only [List.mem_singleton] at hx
          rw [hx]
          exact hv
        · rw [if_neg hde]
          split
          · rename_i parent hlook
            obtain ⟨nv', ns', heq2, hns, hfr, hnd⟩ :=
              ih parent (script.revision :: visited) sorted
            refine ⟨nv' ++ [script.revision], ns' ++ [script], ?_, ?_, ?_, ?_⟩
            · rw [heq2]
              simp [List.append_assoc]
            · intro t ht
              rcases List.mem_append.mp ht with ht | ht
              · exact List.mem_append_left _ (hns t ht)
              · simp only [List.mem_singleton] at ht
                rw [ht]
                exact List.mem_append_right _ (by simp)
            · intro x hx
              rcases List.mem_append.mp hx with hx | hx
              · intro hmem
                exact hfr x hx (List.mem_cons_of_mem _ hmem)
              · simp only [List.mem_singleton] at hx
                rw [hx]
                exact hv
            · simp only [List.map_append, List.map_cons, List.map_nil]
              rw [List.nodup_append]
              refine ⟨hnd, by simp, ?_⟩
              intro a ha ha2
              simp only [List.mem_singleton] at ha2
              obtain ⟨t, ht, hrt⟩ := List.mem_map.mp ha
              have : a ∈ nv' := hrt ▸ hns t ht
              exact hfr a this (ha2 ▸ List.mem_cons_self _ _)
          · rename_i hlook
            refine ⟨[script.revision], [script], by simp, by simp, ?_, by simp⟩
            intro x hx
            simp only [List.mem_singleton] at hx
            rw [hx]
            exact hv
      · rename_i heq
        refine ⟨[script.revision], [script], by simp, by simp, ?_, by simp⟩
        intro x hx
        simp only [List.mem_singleton] at hx
        rw [hx]
        exact hv

/-- Across the sort's outer fold, every sorted script's revision is
visited and the sorted scripts carry pairwise-distinct revisions: the
sorted plan never holds two scripts with the same revision. -/
theorem sortFold_nodup (byRev : List (String × Script)) (F : Nat) :
    ∀ (l : List Script) (acc : List String × List Script),
      (∀ t ∈ acc.2, t.revision ∈ acc.1) →
      (acc.2.map Script.revision).Nodup →
      (∀ t ∈ (l.foldl (fun a s => visitFuel byRev (F + 1) s a) acc).2,
         t.revision ∈ (l.foldl (fun a s => visitFuel byRev (F + 1) s a) acc).1) ∧
      ((l.foldl (fun a s => visitFuel byRev (F + 1) s a) acc).2.map
        Script.revision).Nodup := by
  intro l
  induction l with
  | nil =>
    intro acc h1 h2
    exact ⟨h1, h2⟩
  | cons s rest ih =>
    intro acc h1 h2
    simp only [List.foldl_cons]
    obtain ⟨nv, ns, heq, hns, hfr, hnd⟩ := visitFuel_fresh byRev (F + 1) s acc.1 acc.2
    have hacc : visitFuel byRev (F + 1) s acc = (nv ++ acc.1, acc.2 ++ ns) := heq
    apply ih
    · rw [hacc]
      intro t ht
      rcases List.mem_append.mp ht with ht | ht
      · exact List.mem_append_right _ (h1 t ht)
      · exact List.mem_append_left _ (hns t ht)
    · rw [hacc]
      simp only [List.map_append]
      rw [List.nodup_append]
      refine ⟨h2, hnd, ?_⟩
      intro a ha ha2
      obtain ⟨u, hu, hru⟩ := List.mem_map.mp ha
      obtain ⟨t, ht, hrt⟩ := List.mem_map.mp ha2
      exact hfr a (hrt ▸ hns t ht) (hru ▸ h1 u hu)

/-- A script whose down-revision names a revision no script carries. -/
def orphanScript : Script :=
  { revision := "bbb", downRevision := some "zzz",
    upgradeStmts := Except.ok ["CREATE TABLE o (id INTEGER)"],
    downgradeStmts := Except.ok [] }

/-- C6 (counterexample): loading a script set with a broken down-revision
chain does NOT fail — the orphan script is returned by the load step, and
a subsequent `upgrade("head")` run executes it without error. -/
theorem c6_broken_chain_loads_and_runs :
    loadMigrations [orphanScript] = [orphanScript] ∧
    (runnerUpgrade [orphanScript] "head" emptyDbState).2.2 = none ∧
    (runnerUpgrade [orphanScript] "head" emptyDbState).2.1.executed =
      ["CREATE TABLE o (id INTEGER)"] :=
  ⟨rfl, rfl, rfl⟩

/-- C6 (amended): loading migrations never fails on a broken down-revision
chain: for any script set with pairwise-distinct revisions, every script —
including one whose `down_revision` has no corresponding script, whose
missing parent the sort silently skips — appears exactly once in the
loaded, sorted plan. -/
theorem c6_broken_chain_tolerated (scripts : List Script)
    (hnodup : (scripts.map Script.revision).Nodup) :
    ∀ s ∈ scripts, s ∈ loadMigrations scripts ∧
      (loadMigrations scripts).count s = 1 := by
  have hmem : ∀ s ∈ scripts, s ∈ loadMigrations scripts := by
    intro s hs
    obtain ⟨g1, g2, g3, -⟩ := sortFold_spec (scripts.map (fun t => (t.revision, t)))
      scripts.length scripts scripts ([], []) (fun t ht => ht) (by simp) (by simp)
    have hrev := g3 s hs
    obtain ⟨t, ht, hrt⟩ := g1 s.revision hrev
    have htm : t ∈ scripts := by
      rcases g2 t ht with h | h
      · exact h
      · obtain ⟨k, hk⟩ := h
        obtain ⟨u, hu, huk⟩ := List.mem_map.mp hk
        have hut : u = t := congrArg Prod.snd huk
        rw [← hut]
        exact hu
    have hts : t = s := List.inj_on_of_nodup_map hnodup htm hs hrt
    rw [← hts]
    exact ht
  have hplan : ((loadMigrations scripts).map Script.revision).Nodup := by
    obtain ⟨-, h⟩ := sortFold_nodup (scripts.map (fun t => (t.revision, t)))
      scripts.length scripts ([], []) (by simp) (by simp)
    exact h
  have hplan2 : (loadMigrations scripts).Nodup := List.Nodup.of_map _ hplan
  intro s hs
  exact ⟨hmem s hs, List.count_eq_one_of_mem hplan2 (hmem s hs)⟩

/-- C6 witness: the amended statement on the orphan script — it survives
the load despite its missing parent and appears in the plan exactly once. -/
theorem c6_broken_chain_tolerated_witness :
    orphanScript ∈ loadMigrations [orphanScript] ∧
    (loadMigrations [orphanScript]).count orphanScript = 1 :=
  c6_broken_chain_tolerated [orphanScript] (by decide) orphanScript (by decide)

/-! ## C3 -/

/-- Statement vocabulary for the amended C3 claim: the per-entry follow-up
weight the code actually realises — `noload` entries and JOIN-covered
many-to-one `joined` entries cost nothing, many-to-many entries cost two
statements, and every other entry (including a `joined` option on a
one-to-many relationship, which falls back to selectin) costs one. -/
def loadEntryWeight (q : QueryState) (opt : String × String) : Nat :=
  match q.relationships.lookup opt.1 with
  | none => 0
  | some rel =>
    if opt.2 = "noload" then 0
    else if rel.isManyToMany then 2
    else if rel.uselist then 1
    else if opt.2 = "joined" then 0
    else 1

/-- Statement vocabulary for the amended C3 claim: non-degeneracy of a
load-plan entry — the relationship exists and is resolved, the strategy is
one of the documented three, a many-to-many descriptor is a collection (as
`resolve` guarantees), the key columns are present and non-empty, at least
one parent carries the needed key / a non-null foreign key, and a
many-to-many entry matches at least one junction association. -/
def loadEntryOk (q : QueryState) (instances : List Inst)
    (junctionDb : String → List (Option Int × Option Int))
    (opt : String × String) : Bool :=
  match q.relationships.lookup opt.1 with
  | none => false
  | some rel =>
    match rel.target with
    | none => false
    | some target =>
      if opt.2 = "noload" then true
      else if opt.2 ≠ "selectin" ∧ opt.2 ≠ "joined" then false
      else if rel.isManyToMany then
        rel.uselist && !strFalsy q.model.primaryKey &&
        (match q.model.primaryKey with
         | none => false
         | some pkCol =>
           !strFalsy rel.junctionLocalCol && !strFalsy rel.junctionRemoteCol &&
           !strFalsy target.primaryKey &&
           (let parentIds := instances.filterMap (fun i =>
               match i.attrs.lookup pkCol with
               | some (some v) => some v
               | _ => none)
            !parentIds.isEmpty &&
            !((junctionDb rel.secondary).filterMap (fun r =>
                match r.1 with
                | some p => if p ∈ parentIds then some r.2 else none
                | none => none)).isEmpty))
      else if rel.uselist then
        !strFalsy rel.localFkCol && !strFalsy (pyOrStr rel.remotePkCol q.model.primaryKey) &&
        (match pyOrStr rel.remotePkCol q.model.primaryKey with
         | none => false
         | some pk => !(instances.filterMap (fun i => i.attrs.lookup pk)).isEmpty)
      else
        !strFalsy rel.localFkCol && !strFalsy (pyOrStr rel.remotePkCol target.primaryKey) &&
        (decide (opt.2 = "joined") ||
          (match rel.localFkCol with
           | none => false
           | some fk => !(instances.filterMap (fun i =>
               match i.attrs.lookup fk with
               | some (some v) => some v
               | _ => none)).isEmpty))

/-- A non-falsy optional string holds a non-empty string. -/
theorem strFalsy_false {o : Option String} (h : strFalsy o = false) :
    ∃ s, o = some s ∧ ¬ s = "" := by
  cases o with
  | none => simp [strFalsy] at h
  | some s =>
    refine ⟨s, rfl, ?_⟩
    simpa [strFalsy] using h

/-- One join-builder step either keeps the accumulated joins or appends a
record for a many-to-one `joined` option. -/
theorem joinStep_cases (q : QueryState) (acc : List JoinInfo × Nat)
    (opt : String × String) :
    (joinStep q acc opt).1 = acc.1 ∨
    ∃ rel target lc rc,
      q.relationships.lookup opt.1 = some rel ∧ opt.2 = "joined" ∧
      rel.target = some target ∧ rel.uselist = false ∧
      (joinStep q acc opt).1 =
        acc.1 ++ [⟨opt.1, target, "LEFT", lc, rc, "_j" ++ toString acc.2⟩] := by
  simp only [joinStep]
  split
  · exact Or.inl rfl
  next hnj =>
    have h2 : opt.2 = "joined" := not_not.mp hnj
    split
    · exact Or.inl rfl
    next rel hrel =>
      split
      · exact Or.inl rfl
      next target htarget =>
        split
        · exact Or.inl rfl
        next hul =>
          split
          · exact Or.inl rfl
          next hfal =>
            split
            next lc rc hlc hrc =>
              exact Or.inr ⟨rel, target, lc, rc, hrel, h2, htarget,
                Bool.not_eq_true _ ▸ eq_false_of_ne_true hul, rfl⟩
            next hmiss =>
              exact Or.inl rfl

/-- Names accumulated by the join builder persist through later steps. -/
theorem bji_fold_mono (q : QueryState) :
    ∀ (l : List (String × String)) (acc : List JoinInfo × Nat) (n : String),
      n ∈ acc.1.map JoinInfo.relName →
      n ∈ ((l.foldl (joinStep q) acc).1.map JoinInfo.relName) := by
  intro l
  induction l with
  | nil => intro acc n h; exact h
  | cons o rest ih =>
    intro acc n h
    simp only [List.foldl_cons]
    apply ih
    rcases joinStep_cases q acc o with hc | ⟨rel, target, lc, rc, -, -, -, -, hc⟩
    · rw [hc]
      exact h
    · rw [hc]
      simp only [List.map_append]
      exact List.mem_append_left _ h

/-- Every name the join builder emits belongs to a `joined` load option on
a resolvable non-collection relationship. -/
theorem bji_fold_sound (q : QueryState) :
    ∀ (l : List (String × String)) (acc : List JoinInfo × Nat) (n : String),
      n ∈ ((l.foldl (joinStep q) acc).1.map JoinInfo.relName) →
      n ∈ acc.1.map JoinInfo.relName ∨
        ∃ o ∈ l, o.1 = n ∧ o.2 = "joined" ∧
          ∃ rel, q.relationships.lookup n = some rel ∧ rel.uselist = false := by
  intro l
  induction l with
  | nil => intro acc n h; exact Or.inl h
  | cons o rest ih =>
    intro acc n h
    simp only [List.foldl_cons] at h
    rcases ih (joinStep q acc o) n h with h1 | h1
    · rcases joinStep_cases q acc o with hc | ⟨rel, target, lc, rc, hrel, h2, ht, hu, hc⟩
      · rw [hc] at h1
        exact Or.inl h1
      · rw [hc] at h1
        simp only [List.map_append, List.mem_append] at h1
        rcases h1 with h1 | h1
        · exact Or.inl h1
        · simp only [List.map_cons, List.map_nil, List.mem_singleton] at h1
          right
          refine ⟨o, List.mem_cons_self _ _, h1.symm, h2, rel, ?_, hu⟩
          rw [h1]
          exact hrel
    · obtain ⟨o2, ho2, hrest⟩ := h1
      exact Or.inr ⟨o2, List.mem_cons_of_mem _ ho2, hrest⟩

/-- A fully resolvable many-to-one `joined` load option always contributes
its relationship name to the join builder's output. -/
theorem bji_fold_complete (q : QueryState) (opt : String × String) (rel : RelInfo)
    (target : Model) (lc rc : String)
    (hrel : q.relationships.lookup opt.1 = some rel) (h2 : opt.2 = "joined")
    (ht : rel.target = some target) (hu : rel.uselist = false)
    (hlc : rel.localFkCol = some lc) (hlcne : ¬ lc = "")
    (hrc : pyOrStr rel.remotePkCol target.primaryKey = some rc) (hrcne : ¬ rc = "") :
    ∀ (l : List (String × String)) (acc : List JoinInfo × Nat),
      opt ∈ l → opt.1 ∈ ((l.foldl (joinStep q) acc).1.map JoinInfo.relName) := by
  intro l
  induction l with
  | nil => intro acc h; cases h
  | cons o rest ih =>
    intro acc hmem
    simp only [List.foldl_cons]
    rcases List.mem_cons.mp hmem with h | h
    · subst h
      apply bji_fold_mono
      have hstep : (joinStep q acc opt).1 =
          acc.1 ++ [⟨opt.1, target, "LEFT", lc, rc, "_j" ++ toString acc.2⟩] := by
        simp [joinStep, hrel, ht, hlc, hrc, h2, hu, strFalsy, hlcne, hrcne]
      rw [hstep]
      simp
    · exact ih _ h

/-- Under the non-degeneracy conditions and distinct plan names, the
number of statements the loader issues for one entry equals the amended
weight. -/
theorem loadOptionCost_eq_weight (q : QueryState) (instances : List Inst)
    (junctionDb : String → List (Option Int × Option Int)) (opt : String × String)
    (hopt : opt ∈ q.loadOptions)
    (hnames : (q.loadOptions.map Prod.fst).Nodup)
    (hok : loadEntryOk q instances junctionDb opt = true) :
    loadOptionCost q instances junctionDb ((buildJoinInfo q).map JoinInfo.relName) opt =
      loadEntryWeight q opt := by
  cases hrel : q.relationships.lookup opt.1 with
  | none => simp [loadEntryOk, hrel] at hok
  | some rel =>
  cases htg : rel.target with
  | none => simp [loadEntryOk, hrel, htg] at hok
  | some target =>
  have huniq : ∀ o ∈ q.loadOptions, o.1 = opt.1 → o = opt :=
    fun o ho h1 => List.inj_on_of_nodup_map hnames ho hopt h1
  have hnotj : (rel.uselist = true ∨ opt.2 ≠ "joined") →
      opt.1 ∉ (buildJoinInfo q).map JoinInfo.relName := by
    intro hA hmem
    rcases bji_fold_sound q q.loadOptions ([], 1) opt.1 hmem with h | h
    · simp at h
    · obtain ⟨o, ho, ho1, ho2, rel2, hrel2, hu2⟩ := h
      have hoe : o = opt := huniq o ho ho1
      rw [hoe] at ho2
      rw [hrel] at hrel2
      obtain hre : rel = rel2 := Option.some.inj hrel2
      rcases hA with hA | hA
      · rw [hre] at hA
        rw [hA] at hu2
        cases hu2
      · exact hA ho2
  by_cases hnl : opt.2 = "noload"
  · simp [loadOptionCost, loadEntryWeight, hrel, hnl]
  · have hsel : opt.2 = "selectin" ∨ opt.2 = "joined" := by
      by_contra hcon
      push_neg at hcon
      simp [loadEntryOk, hrel, htg, hnl, hcon.1, hcon.2] at hok
    have hselne : ¬ (opt.2 ≠ "selectin" ∧ opt.2 ≠ "joined") := by
      rcases hsel with h | h <;> simp [h]
    simp only [loadEntryOk, hrel, htg] at hok
    rw [if_neg hnl, if_neg hselne] at hok
    by_cases hm2m : rel.isManyToMany = true
    · -- many-to-many: two statements
      rw [if_pos hm2m] at hok
      rw [Bool.and_eq_true, Bool.and_eq_true] at hok
      obtain ⟨⟨hul, hpkb'⟩, hrest⟩ := hok
      have hpkb : strFalsy q.model.primaryKey = false := by simpa using hpkb'
      cases hpk : q.model.primaryKey with
      | none =>
        rw [hpk] at hrest
        simp at hrest
      | some pkCol =>
        rw [hpk] at hrest
        simp only [Bool.and_eq_true, Bool.not_eq_true'] at hrest
        obtain ⟨⟨⟨hjl, hjr⟩, htp⟩, hpar, hjun⟩ := hrest
        simp only [loadOptionCost, hrel]
        rw [if_neg (hnotj (Or.inl hul)), if_pos hsel]
        simp only [loadEntryWeight, hrel]
        rw [if_neg hnl, if_pos hm2m]
        rw [hpk] at hpkb
        simp [selectinQueryCount, htg, hm2m, hpk, hpkb, hjl, hjr, htp, hpar]
        simpa using hjun
    · -- not many-to-many
      rw [if_neg hm2m] at hok
      by_cases hul : rel.uselist = true
      · -- one-to-many: one statement
        rw [if_pos hul] at hok
        rw [Bool.and_eq_true, Bool.and_eq_true] at hok
        obtain ⟨⟨hfk, hpy⟩, hrest⟩ := hok
        cases hpyo : pyOrStr rel.remotePkCol q.model.primaryKey with
        | none =>
          rw [hpyo] at hrest
          simp at hrest
        | some pk =>
          rw [hpyo] at hrest
          have hne : (instances.filterMap (fun i => i.attrs.lookup pk)).isEmpty = false := by
            simpa using hrest
          have hfk' : strFalsy rel.localFkCol = false := by simpa using hfk
          have hpy' : strFalsy (pyOrStr rel.remotePkCol q.model.primaryKey) = false := by
            simpa using hpy
          simp only [loadOptionCost, hrel]
          rw [if_neg (hnotj (Or.inl hul)), if_pos hsel]
          simp only [loadEntryWeight, hrel]
          rw [if_neg hnl, if_neg hm2m, if_pos hul]
          rw [hpyo] at hpy'
          simp [selectinQueryCount, htg, hm2m, hul, hpyo, hfk', hpy', hne]
      · -- many-to-one
        rw [if_neg hul] at hok
        rw [Bool.and_eq_true, Bool.and_eq_true] at hok
        obtain ⟨⟨hfk, hpy⟩, hrest⟩ := hok
        have hfk' : strFalsy rel.localFkCol = false := by simpa using hfk
        have hpy' : strFalsy (pyOrStr rel.remotePkCol target.primaryKey) = false := by
          simpa using hpy
        rcases hsel with hs | hs
        · -- selectin on a many-to-one: one statement
          have hjoinne : opt.2 ≠ "joined" := by
            rw [hs]
            decide
          rw [Bool.or_eq_true] at hrest
          have hfkv : ∃ fk, rel.localFkCol = some fk ∧
              ((instances.filterMap (fun i =>
                match i.attrs.lookup fk with
                | some (some v) => some v
                | _ => none)).isEmpty = false) := by
            rcases hrest with hj | hrest
            · exact absurd (of_decide_eq_true hj) hjoinne
            · cases hlf : rel.localFkCol with
              | none =>
                rw [hlf] at hrest
                simp at hrest
              | some fk =>
                rw [hlf] at hrest
                refine ⟨fk, rfl, ?_⟩
                simpa using hrest
          obtain ⟨fk, hlf, hne⟩ := hfkv
          simp only [loadOptionCost, hrel]
          rw [if_neg (hnotj (Or.inr hjoinne)), if_pos (Or.inl hs)]
          simp only [loadEntryWeight, hrel]
          rw [if_neg hnl, if_neg hm2m, if_neg hul, if_neg hjoinne]
          have hulF : rel.uselist = false := by simpa using hul
          rw [hlf] at hfk'
          simp [selectinQueryCount, htg, hm2m, hulF, hlf, hfk', hpy', hne]
        · -- joined on a many-to-one: covered by the base query — no statement
          obtain ⟨lc, hlc, hlcne⟩ := strFalsy_false hfk'
          obtain ⟨rc, hrc, hrcne⟩ := strFalsy_false hpy'
          have hmem : opt.1 ∈ (buildJoinInfo q).map JoinInfo.relName :=
            bji_fold_complete q opt rel target lc rc hrel hs htg
              (by simpa using hul) hlc hlcne hrc hrcne q.loadOptions ([], 1) hopt
          simp only [loadOptionCost, hrel]
          rw [if_pos hmem]
          simp only [loadEntryWeight, hrel]
          rw [if_neg hnl, if_neg hm2m, if_neg hul, if_pos hs]

/-- The one-to-many relationship `User.posts`, resolved. -/
def relPosts : RelInfo :=
  { uselist := true, isManyToMany := false, target := some postModel,
    localFkCol := some "author_id", remotePkCol := none, secondary := "",
    junctionLocalCol := none, junctionRemoteCol := none }

/-- A `User` query with a `joined("posts")` load option. -/
def qUserJoinedPosts : QueryState :=
  { defaultQuery userModel [("posts", relPosts)] "sqlite" with
      loadOptions := [("posts", "joined")] }

/-- C3 (counterexample): a `joined` load option on a one-to-many
relationship does NOT add zero statements — it falls back to the selectin
strategy, so one parent row with one such plan entry executes 2 statements,
not the `1 + 0` the claim's weighting predicts for a joined entry. -/
theorem c3_joined_one_to_many_costs_a_query :
    totalSelectQueries qUserJoinedPosts [⟨[("id", some 1)]⟩] (fun _ => []) = 2 ∧
    (2 : Nat) ≠ 1 + 0 :=
  ⟨rfl, by decide⟩

/-- C3 (amended): for a nonempty parent set, a load plan with pairwise
distinct relationship names and non-degenerate entries, the executed query
issues exactly `1 + K''` statements where each entry contributes its
amended weight: 0 for `noload` and for JOIN-covered `joined` many-to-one
entries, 2 for many-to-many entries, and 1 for every other entry —
including `joined` on a one-to-many, which falls back to the selectin
loader. -/
theorem c3_load_plan_query_count (q : QueryState) (instances : List Inst)
    (junctionDb : String → List (Option Int × Option Int))
    (hinst : instances ≠ [])
    (hnames : (q.loadOptions.map Prod.fst).Nodup)
    (hok : ∀ opt ∈ q.loadOptions, loadEntryOk q instances junctionDb opt = true) :
    totalSelectQueries q instances junctionDb =
      1 + (q.loadOptions.map (loadEntryWeight q)).sum := by
  by_cases hlo : q.loadOptions = []
  · simp [totalSelectQueries, applyLoadOptionsCost, hlo]
  · have hcond : ¬ (instances.isEmpty ∨ q.loadOptions.isEmpty) := by
      simp [List.isEmpty_iff, hinst, hlo]
    simp only [totalSelectQueries, applyLoadOptionsCost]
    rw [if_neg hcond]
    congr 1
    exact congrArg List.sum (List.map_congr_left (fun opt ho =>
      loadOptionCost_eq_weight q instances junctionDb opt ho hnames (hok opt ho)))

/-- `Tag`, the far side of a many-to-many. -/
def tagModel : Model :=
  { name := "Tag", tablename := "tags",
    columns := [("id", true, true), ("label", false, false)],
    primaryKey := some "id", softDelete := false }

/-- `Settings`, a one-to-one target used for a `noload` entry. -/
def settingsModel : Model :=
  { name := "Settings", tablename := "settings",
    columns := [("id", true, true)],
    primaryKey := some "id", softDelete := false }

/-- The many-to-one relationship `User.best_post`, resolved. -/
def relBestPost : RelInfo :=
  { uselist := false, isManyToMany := false, target := some postModel,
    localFkCol := some "best_post_id", remotePkCol := none, secondary := "",
    junctionLocalCol := none, junctionRemoteCol := none }

/-- The many-to-many relationship `User.tags` through `user_tags`, resolved. -/
def relTags : RelInfo :=
  { uselist := true, isManyToMany := true, target := some tagModel,
    localFkCol := none, remotePkCol := none, secondary := "user_tags",
    junctionLocalCol := some "user_id", junctionRemoteCol := some "tag_id" }

/-- The scalar relationship `User.settings`, resolved. -/
def relSettings : RelInfo :=
  { uselist := false, isManyToMany := false, target := some settingsModel,
    localFkCol := some "settings_id", remotePkCol := none, secondary := "",
    junctionLocalCol := none, junctionRemoteCol := none }

/-- A `User` query whose load plan exercises all four amended weights:
a `joined` one-to-many (weight 1), a `joined` many-to-one (weight 0), a
`selectin` many-to-many (weight 2) and a `noload` entry (weight 0). -/
def qC3Witness : QueryState :=
  { defaultQuery userModel
      [("posts", relPosts), ("best_post", relBestPost), ("tags", relTags),
       ("settings", relSettings)] "sqlite" with
      loadOptions := [("posts", "joined"), ("best_post", "joined"),
        ("tags", "selectin"), ("settings", "noload")] }

/-- One parent row for the C3 witness. -/
def instC3 : List Inst :=
  [⟨[("id", some 1), ("best_post_id", some 7)]⟩]

/-- Junction-table contents for the C3 witness: `user_tags` associates
parent 1 with tag 5. -/
def junctionC3 : String → List (Option Int × Option Int) :=
  fun t => if t = "user_tags" then [(some 1, some 5)] else []

/-- C3 witness: the amended count theorem applied at a concrete four-entry
plan — its hypotheses hold and the executed query issues 1 + (1+0+2+0) = 4
statements. -/
theorem c3_load_plan_query_count_witness :
    instC3 ≠ [] ∧
    totalSelectQueries qC3Witness instC3 junctionC3 =
      1 + (qC3Witness.loadOptions.map (loadEntryWeight qC3Witness)).sum ∧
    totalSelectQueries qC3Witness instC3 junctionC3 = 4 :=
  ⟨by decide,
   c3_load_plan_query_count qC3Witness instC3 junctionC3 (by decide) (by decide) (by decide),
   by decide⟩

end Ormkit
